import Mathlib

/-!
Verification of the deterministic signal-to-event correlation engine of the
vosk-transcription repository.

The development shallowly embeds, in Lean 4:

* `Interpret.py` (v1.1.0) - the per-sentence behavioral-deviation detector
  (`compute_grade`, `get_baseline`, `detect_indicators`, `transform`);
* `EventGen.py` (v1.2.0) - the correlation rule engine with affordability
  consolidation, pressure-review ordering, call-scoped PII rule, and the
  first-seen (event_type, sentence_index) deduplicator;
* `ver_4/v2_pipeline/EventProcessor-3.py` (v1.1.0) - the V2 variant rule
  engine (`EventDetector`) and the deterministic interpretation fallback
  layer (`get_fallback_analysis`, `interpret_events` with the LLM disabled).

Modelling conventions:

* Python floats are modelled as `ℚ`; non-negative integer metrics as `ℕ`
  (cast to `ℚ` where the source mixes them in arithmetic).
* `round(x, 2)` is modelled by `round2`, exact rational rounding to two
  decimals with ties going to the even hundredth (Python's round-half-even).
* Signal and marker streams are modelled as position-indexed lists, one
  record per sentence in order: `TextEXT.py` and `Interpret.py` both emit
  exactly one record per sentence with `sentence_index = idx` (enumerate),
  so the `sentence_index`-keyed dictionaries built by `EventGen.py`
  coincide with positional indexing.
* Pure string formatting (indicator `evidence` text, event `explanation`
  text) that no specified property depends on is either elided or built
  with plain concatenation of the same constituents as the source
  f-strings; numeric payloads, event ordering, evidence structure, and all
  guard logic are modelled exactly.
* File and process I/O (`main`, encoding fallbacks, stderr logging) is out
  of scope; the LLM client branch of `interpret_events` performs external
  I/O and is modelled only in its `enable_llm = False` configuration, in
  which the source sets `client = None` before the loop.
-/

namespace VoskSpec

/-! ## Rational rounding to two decimals (model of Python `round(x, 2)`) -/

/-- Round a rational to two decimal places, ties to the even hundredth.
This models Python's `round(x, 2)` (round-half-even) over exact rationals. -/
def round2 (q : ℚ) : ℚ :=
  let x : ℚ := q * 100
  let f : ℤ := ⌊x⌋
  let r : ℚ := x - (f : ℚ)
  if r < 1/2 then (f : ℚ) / 100
  else if 1/2 < r then ((f + 1 : ℤ) : ℚ) / 100
  else (if f % 2 = 0 then (f : ℚ) else ((f + 1 : ℤ) : ℚ)) / 100

/-! ## Interpret.py v1.1.0 - constants -/

def GRADE_THRESHOLD : ℚ := 1/2
def EXTREME_DEVIATION_THRESHOLD : ℚ := 9/10
def LOW_CONFIDENCE_THRESHOLD : ℚ := 3/10
def BASELINE_WINDOW : ℕ := 5
def WARMUP_SENTENCES : ℕ := 5

/-! ## Interpret.py - data model -/

/-- Per-sentence speech measurements (the `speech` object of a VtoT
sentence); missing fields default to the 0 sentinel upstream, so the
fields are total here. -/
structure SpeechIn where
  word_count : ℕ
  confidence : ℚ
  speed_wpm : ℚ
  pause_count : ℕ
  pause_duration : ℚ
  filler_count : ℕ
deriving DecidableEq, Repr

/-- One input sentence of a call, as consumed by `transform`. -/
structure SentenceIn where
  text : String
  tstart : ℚ
  tend : ℚ
  speech : SpeechIn
deriving DecidableEq, Repr

/-- The `metrics` dictionary built inside `transform` for one sentence. -/
structure Metrics where
  word_count : ℕ
  confidence : ℚ
  speed : ℚ
  pause_count : ℕ
  pause_duration : ℚ
  filler_count : ℕ
  text : String
deriving DecidableEq, Repr

def metricsOf (s : SentenceIn) : Metrics :=
  { word_count := s.speech.word_count
    confidence := s.speech.confidence
    speed := s.speech.speed_wpm
    pause_count := s.speech.pause_count
    pause_duration := s.speech.pause_duration
    filler_count := s.speech.filler_count
    text := s.text }

/-- The `baselines` dictionary: per-metric rolling baseline, `none` while
the metric's history is empty. -/
structure Baselines where
  speed : Option ℚ
  pause_count : Option ℚ
  confidence : Option ℚ
  word_count : Option ℚ
  filler_count : Option ℚ
deriving DecidableEq, Repr

/-- An emitted indicator.  The `evidence` string of the source is pure
formatting of the same numbers and is elided (no specified property
mentions it). -/
structure Indicator where
  indicator : String
  grade : ℚ
deriving DecidableEq, Repr

/-! ## Interpret.py - functions -/

/-- `compute_grade`: universal grade formula `|current - baseline| / baseline`
capped at 1.0; returns 0.0 if the baseline is zero. -/
def compute_grade (current baseline : ℚ) : ℚ :=
  if baseline = 0 then 0 else min 1 (|current - baseline| / baseline)

/-- `get_baseline`: rolling average of the last `BASELINE_WINDOW` history
entries (`history[-window:]`), `none` on an empty history. -/
def get_baseline (history : List ℚ) : Option ℚ :=
  match history with
  | [] => none
  | _ =>
    let recent := history.drop (history.length - BASELINE_WINDOW)
    some (recent.sum / (recent.length : ℚ))

/-- Indicator-name constants (string literals of the source). -/
def data_quality_issue_s : String := "data_quality_issue"
def speed_deviation_s : String := "speed_deviation"
def pause_count_increase_s : String := "pause_count_increase"
def filler_increase_s : String := "filler_increase"
def word_count_deviation_s : String := "word_count_deviation"
def agreement_pattern_s : String := "agreement_pattern"

/-- The closed agreement token set of the source. -/
def agreement_tokens : List String :=
  ["yes", "yeah", "okay", "ok", "sure", "right", "alright", "fine", "yep", "yup"]

/-- Python `str.lower()` (character-wise lowercasing). -/
def pyLower (s : String) : String := String.mk (s.toList.map Char.toLower)

def splitWsAux : List Char → List Char → List String
  | [], acc => if acc = [] then [] else [String.mk acc.reverse]
  | c :: cs, acc =>
    if c.isWhitespace then
      (if acc = [] then splitWsAux cs [] else String.mk acc.reverse :: splitWsAux cs [])
    else splitWsAux cs (c :: acc)

/-- Python `str.split()` with no argument: split on whitespace runs,
dropping empty fields. -/
def pyWords (s : String) : List String := splitWsAux s.toList []

def isStripPunct (c : Char) : Bool :=
  c = '.' ∨ c = ',' ∨ c = '!' ∨ c = '?'

/-- Python `str.strip('.,!?')`: remove leading and trailing characters
from the set `.,!?`. -/
def pyStrip (s : String) : String :=
  String.mk (((s.toList.dropWhile isStripPunct).reverse.dropWhile isStripPunct).reverse)

/-- `detect_indicators`, speed block: both directions, requires a truthy
(nonzero) speed baseline, a positive current speed and warmup over. -/
def speed_block (m : Metrics) (b : Baselines) (in_warmup : Bool) : List Indicator :=
  match b.speed with
  | none => []
  | some bs =>
    if bs ≠ 0 ∧ m.speed > 0 ∧ in_warmup = false then
      let g := compute_grade m.speed bs
      if g ≥ GRADE_THRESHOLD then [⟨speed_deviation_s, round2 g⟩] else []
    else []

/-- `detect_indicators`, pause_count block: increase only; fixed 0.5 grade
when the baseline is exactly 0. -/
def pause_block (m : Metrics) (b : Baselines) (in_warmup : Bool) : List Indicator :=
  match b.pause_count with
  | none => []
  | some bp =>
    if in_warmup = false ∧ (m.pause_count : ℚ) > bp then
      let g := if bp > 0 then compute_grade (m.pause_count : ℚ) bp else (1/2 : ℚ)
      if g ≥ GRADE_THRESHOLD then [⟨pause_count_increase_s, round2 g⟩] else []
    else []

/-- `detect_indicators`, filler block: increase only; zero-baseline grade
is 0.5 when the current count is at least 1, else 0. -/
def filler_block (m : Metrics) (b : Baselines) (in_warmup : Bool) : List Indicator :=
  match b.filler_count with
  | none => []
  | some bf =>
    if in_warmup = false ∧ (m.filler_count : ℚ) > bf then
      let g := if bf > 0 then compute_grade (m.filler_count : ℚ) bf
               else (if m.filler_count ≥ 1 then (1/2 : ℚ) else 0)
      if g ≥ GRADE_THRESHOLD then [⟨filler_increase_s, round2 g⟩] else []
    else []

/-- `detect_indicators`, word_count block: both directions, truthy
(nonzero) baseline and positive current word count required. -/
def word_count_block (m : Metrics) (b : Baselines) (in_warmup : Bool) : List Indicator :=
  match b.word_count with
  | none => []
  | some bw =>
    if bw ≠ 0 ∧ m.word_count > 0 ∧ in_warmup = false then
      let g := compute_grade (m.word_count : ℚ) bw
      if g ≥ GRADE_THRESHOLD then [⟨word_count_deviation_s, round2 g⟩] else []
    else []

/-- `detect_indicators`, agreement-pattern block: first token of the
lowercased text, stripped of `.,!?`, must be an agreement token; current
word count at most 3; previous word count at least twice the current. -/
def agreement_block (m : Metrics) (prev_word_count : Option ℕ) (in_warmup : Bool) :
    List Indicator :=
  match prev_word_count with
  | none => []
  | some prev =>
    if m.text ≠ "" ∧ m.word_count ≤ 3 ∧ in_warmup = false then
      match pyWords (pyLower m.text) with
      | [] => []
      | t :: _ =>
        let first_token := pyStrip t
        if first_token ∈ agreement_tokens ∧ prev ≥ m.word_count * 2 then
          let g := if m.word_count > 0
                   then min 1 ((prev : ℚ) / ((m.word_count : ℚ) * 3))
                   else (1/2 : ℚ)
          if g ≥ GRADE_THRESHOLD then [⟨agreement_pattern_s, round2 g⟩] else []
        else []
    else []

/-- `detect_indicators`: data-quality gate first (low ASR confidence
suppresses every other rule), then the five deviation blocks in source
order.  Returns the indicator list and the low-quality flag. -/
def detect_indicators (m : Metrics) (b : Baselines) (prev_word_count : Option ℕ)
    (in_warmup : Bool) : List Indicator × Bool :=
  if 0 < m.confidence ∧ m.confidence < LOW_CONFIDENCE_THRESHOLD then
    ([⟨data_quality_issue_s, round2 (1 - m.confidence)⟩], true)
  else
    (speed_block m b in_warmup ++ pause_block m b in_warmup ++ filler_block m b in_warmup
      ++ word_count_block m b in_warmup ++ agreement_block m prev_word_count in_warmup,
     false)

/-! ## Interpret.py - transform (single stateful forward pass) -/

/-- The five measurement histories of `transform`. -/
structure Hist where
  speed : List ℚ
  pause : List ℚ
  confidence : List ℚ
  word_count : List ℚ
  filler : List ℚ
deriving DecidableEq, Repr

def Hist.empty : Hist := ⟨[], [], [], [], []⟩

def baselinesOf (h : Hist) : Baselines :=
  { speed := get_baseline h.speed
    pause_count := get_baseline h.pause
    confidence := get_baseline h.confidence
    word_count := get_baseline h.word_count
    filler_count := get_baseline h.filler }

/-- The post-sentence baseline update of `transform`: skipped entirely for
low-quality sentences and for sentences carrying an extreme (grade above
0.9) indicator; the 0 sentinel is skipped for speed, confidence and
word_count, while pause and filler counts accept 0 as genuine. -/
def update_hist (h : Hist) (m : Metrics) (indicators : List Indicator) (low_q : Bool) :
    Hist :=
  if low_q = false ∧ indicators.any (fun i => i.grade > EXTREME_DEVIATION_THRESHOLD) = false then
    { speed := if m.speed > 0 then h.speed ++ [m.speed] else h.speed
      pause := h.pause ++ [(m.pause_count : ℚ)]
      confidence := if m.confidence > 0 then h.confidence ++ [m.confidence] else h.confidence
      word_count := if m.word_count > 0 then h.word_count ++ [(m.word_count : ℚ)]
                    else h.word_count
      filler := h.filler ++ [(m.filler_count : ℚ)] }
  else h

/-- One output record of `transform` (`measurements` is an echo of the
input and is elided). -/
structure SentOut where
  sentence_index : ℕ
  indicators : List Indicator
deriving DecidableEq, Repr

/-- The loop-carried state of `transform`. -/
structure TState where
  hist : Hist
  prev_word_count : Option ℕ
deriving DecidableEq, Repr

def TState.init : TState := ⟨Hist.empty, none⟩

/-- One iteration of the `transform` loop at sentence index `idx`. -/
def step_sentence (idx : ℕ) (st : TState) (s : SentenceIn) : TState × SentOut :=
  let m := metricsOf s
  let b := baselinesOf st.hist
  let r := detect_indicators m b st.prev_word_count (decide (idx < WARMUP_SENTENCES))
  (⟨update_hist st.hist m r.1 r.2, some m.word_count⟩, ⟨idx, r.1⟩)

def transform_aux : ℕ → TState → List SentenceIn → List SentOut
  | _, _, [] => []
  | idx, st, s :: rest =>
    let p := step_sentence idx st s
    p.2 :: transform_aux (idx + 1) p.1 rest

/-- `transform`: the single causal forward pass over the sentence stream. -/
def transform (sentences : List SentenceIn) : List SentOut :=
  transform_aux 0 TState.init sentences

/-! ## EventGen.py v1.2.0 - data model

Marker-type, category, band, event-type and action string constants of
the source. -/

def financial_entity_s : String := "financial_entity"
def currency_amount_s : String := "currency_amount"
def customer_commitment_s : String := "customer_commitment"
def regulatory_prompt_s : String := "regulatory_prompt"
def product_reference_s : String := "product_reference"
def potential_pii_s : String := "potential_pii"
def phone_pattern_s : String := "phone_pattern"
def account_pattern_s : String := "account_pattern"
def urgency_language_s : String := "urgency_language"
def sales_prompt_s : String := "sales_prompt"
def pii_disclosure_s : String := "pii_disclosure"
def behavioral_hesitation_s : String := "behavioral_hesitation"
def hesitation_s : String := "hesitation"
def low_s : String := "low"
def normal_s : String := "normal"
def high_s : String := "high"
def medium_s : String := "medium"
def commitment_without_consent_s : String := "commitment_without_consent"
def affordability_signal_s : String := "affordability_signal"
def pressure_review_s : String := "pressure_review"
def pii_sensitive_call_s : String := "pii_sensitive_call"
def consent_uncertainty_s : String := "consent_uncertainty"
def consent_gap_s : String := "consent_gap"
def compliance_review_s : String := "compliance_review"
def affordability_check_s : String := "affordability_check"
def manual_review_s : String := "manual_review"
def restricted_access_s : String := "restricted_access"
def compliance_escalation_s : String := "compliance_escalation"
def sales_conduct_review_s : String := "sales_conduct_review"
def access_control_review_s : String := "access_control_review"
def fallback_s : String := "fallback"
def no_reg_prompt_s : String := "no_regulatory_prompt_in_call"
def empty_s : String := ""

/-- One externally supplied text marker (from `TextEXT`). -/
structure GMarker where
  type : String
  category : Option String
  matched_text : Option String
deriving DecidableEq, Repr

/-- One VtoT sentence as used by the rule engines (only its timestamps
and the stream length are read). -/
structure VSent where
  tstart : ℚ
  tend : ℚ
deriving DecidableEq, Repr

/-- An evidence entry of an event, as a tagged union of the heterogeneous
evidence dictionaries of the source (the constant `source` field of each
dictionary is implied by the tag). -/
inductive Evd where
  | currency (matched : Option String) (sentence : ℕ)
  | hesitation (sentences : List ℕ)
  | finCtx (amount_band : String)
  | indicatorAt (name : String) (sentence : ℕ)
  | indicatorList (name : String) (sentences : List ℕ)
  | indicatorOnly (name : String)
  | markerAt (name : String) (sentence : ℕ)
  | markerList (name : String) (sentences : List ℕ)
  | markerOnly (name : String)
  | piiMarker (category : Option String) (sentence : ℕ)
  | ctxSensitivity (product_sensitivity : String)
deriving DecidableEq, Repr

/-- Financial context snapshot (band and sensitivity already defaulted to
`unknown` upstream, so both fields are total). -/
structure FinCtx where
  amount_band : String
  product_sensitivity : String
deriving DecidableEq, Repr

/-- A candidate or final event.  The `speaker_id` field the V2 detector
adds is not mentioned by any specified property and is elided. -/
structure Event where
  event_type : String
  sentence_index : ℕ
  tstart : ℚ
  tend : ℚ
  evidence : List Evd
  amount_band : String
  product_sensitivity : String
  explanation : String
  suggested_action : String
deriving DecidableEq, Repr

/-- The four inputs of `EventGenerator` / `EventDetector`.  Signals and
markers are position-indexed, one record per sentence in order (exactly
the shape `Interpret.py` and `TextEXT.py` emit, where record `i` carries
`sentence_index = i`); each signal record is reduced to its indicator
names, the only part the rule engines read. -/
structure GenInput where
  sentences : List VSent
  signals : List (List String)
  markers : List (List GMarker)
  ctx : FinCtx
deriving DecidableEq, Repr

/-! ## EventGen.py - lookup helpers -/

def has_indicator (inp : GenInput) (idx : ℕ) (name : String) : Bool :=
  decide (name ∈ inp.signals.getD idx [])

def markers_at (inp : GenInput) (idx : ℕ) : List GMarker :=
  inp.markers.getD idx []

def has_marker_type (inp : GenInput) (idx : ℕ) (t : String) : Bool :=
  (markers_at inp idx).any (fun m => decide (m.type = t))

def has_marker_category (inp : GenInput) (idx : ℕ) (cat : String) : Bool :=
  (markers_at inp idx).any (fun m => decide (m.category = some cat))

/-- `_get_currency_markers`: `financial_entity` markers whose category is
`currency_amount`. -/
def currency_markers_at (inp : GenInput) (idx : ℕ) : List GMarker :=
  (markers_at inp idx).filter
    (fun m => decide (m.type = financial_entity_s ∧ m.category = some currency_amount_s))

/-- Python `range(a, b)`. -/
def rangeList (a b : ℕ) : List ℕ := List.range' a (b - a)

/-- `_window_check`: indices in `[max(0, idx-w), min(len(sentences), idx+w+1))`
satisfying the check. -/
def window_check (inp : GenInput) (idx w : ℕ) (f : ℕ → Bool) : List ℕ :=
  (rangeList (idx - w) (min inp.sentences.length (idx + w + 1))).filter f

/-- `_emit`: build an event at anchor `idx` with the call-level financial
context snapshot. -/
def mk_event (inp : GenInput) (event_type : String) (idx : ℕ) (evidence : List Evd)
    (explanation action : String) : Event :=
  let sent := inp.sentences.getD idx ⟨0, 0⟩
  { event_type := event_type
    sentence_index := idx
    tstart := sent.tstart
    tend := sent.tend
    evidence := evidence
    amount_band := inp.ctx.amount_band
    product_sensitivity := inp.ctx.product_sensitivity
    explanation := explanation
    suggested_action := action }

/-! ## EventGen.py - rules -/

/-- `_rule_consent_uncertainty`: commitment with no regulatory prompt in
the prior three sentences and behavioral hesitation at the same sentence. -/
def rule_consent_uncertainty (inp : GenInput) : List Event :=
  (List.range inp.markers.length).filterMap (fun idx =>
    if has_marker_type inp idx customer_commitment_s = false then none
    else if (rangeList (idx - 3) idx).filter
        (fun i => has_marker_type inp i regulatory_prompt_s) ≠ [] then none
    else if (has_indicator inp idx pause_count_increase_s
        || has_indicator inp idx speed_deviation_s
        || has_indicator inp idx agreement_pattern_s) = false then none
    else some (mk_event inp commitment_without_consent_s idx
      [Evd.markerAt customer_commitment_s idx, Evd.indicatorAt behavioral_hesitation_s idx]
      ("Commitment at sentence " ++ toString idx
        ++ " without prior consent prompt, with behavioral hesitation")
      compliance_review_s))

/-- The hesitation window of `_rule_affordability_signal`:
`_window_check(idx, speed_deviation or pause_count_increase, window=1)`. -/
def afford_hesitation (inp : GenInput) (idx : ℕ) : List ℕ :=
  window_check inp idx 1
    (fun i => has_indicator inp i speed_deviation_s || has_indicator inp i pause_count_increase_s)

/-- A sentence index qualifies as an affordability trigger when it holds a
currency marker and its adjacent hesitation window is nonempty (the two
`continue` guards of the source loop). -/
def afford_trigger (inp : GenInput) (idx : ℕ) : Bool :=
  decide (currency_markers_at inp idx ≠ []) && decide (afford_hesitation inp idx ≠ [])

/-- The `matched` values of the currency evidence entries of an event
(`e.get('matched') for e if e.get('marker') == 'currency_amount'`). -/
def currency_matches (ev : List Evd) : List (Option String) :=
  ev.filterMap (fun e => match e with | Evd.currency m _ => some m | _ => none)

def insertSorted (x : ℕ) : List ℕ → List ℕ
  | [] => [x]
  | y :: ys => if x ≤ y then x :: y :: ys else y :: insertSorted x ys

/-- Python `sorted` on naturals (insertion sort). -/
def sortNat (l : List ℕ) : List ℕ := l.foldr insertSorted []

/-- The in-place hesitation merge of the source: rewrite the first
`behavioral_hesitation` evidence entry to `sorted(set(old + new))`. -/
def merge_hesitation : List Evd → List ℕ → List Evd
  | [], _ => []
  | Evd.hesitation s :: rest, hs => Evd.hesitation (sortNat ((s ++ hs).dedup)) :: rest
  | e :: rest, hs => e :: merge_hesitation rest hs

/-- A freshly started affordability event. -/
def new_afford_event (inp : GenInput) (idx : ℕ) (c : GMarker) (hes : List ℕ)
    (band : String) : Event :=
  let sent := inp.sentences.getD idx ⟨0, 0⟩
  { event_type := affordability_signal_s
    sentence_index := idx
    tstart := sent.tstart
    tend := sent.tend
    evidence := [Evd.currency c.matched_text idx, Evd.hesitation hes, Evd.finCtx band]
    amount_band := band
    product_sensitivity := inp.ctx.product_sensitivity
    explanation := "Affordability signal at sentence " ++ toString idx
      ++ ", amount_band=" ++ band
    suggested_action := affordability_check_s }

/-- Loop state of `_rule_affordability_signal`: earlier (implicitly
closed) events in creation order, the currently open event, and the
anchor index of the open event (`first_idx`). -/
structure AffState where
  closed : List Event
  openEv : Option Event
  first_idx : ℕ
deriving DecidableEq, Repr

/-- One iteration of the affordability loop body. -/
def afford_step (inp : GenInput) (st : AffState) (idx : ℕ) : AffState :=
  match currency_markers_at inp idx with
  | [] => st
  | c :: _ =>
    let hes := afford_hesitation inp idx
    if hes = [] then st
    else
      let current_band := inp.ctx.amount_band
      match st.openEv with
      | some ev =>
        if current_band = ev.amount_band then
          let new_currency := c.matched_text
          let ev1 := if new_currency ∈ currency_matches ev.evidence then ev.evidence
                     else ev.evidence ++ [Evd.currency new_currency idx]
          let ev2 := merge_hesitation ev1 hes
          let sent := inp.sentences.getD idx ⟨0, 0⟩
          { st with openEv := some { ev with
              evidence := ev2
              tend := sent.tend
              explanation := "Affordability signals consolidated (sentences "
                ++ toString st.first_idx ++ "-" ++ toString idx
                ++ "), amount_band=" ++ current_band } }
        else
          { closed := st.closed ++ [ev]
            openEv := some (new_afford_event inp idx c hes current_band)
            first_idx := idx }
      | none =>
        { closed := st.closed
          openEv := some (new_afford_event inp idx c hes current_band)
          first_idx := idx }

def afford_loop (inp : GenInput) : List ℕ → AffState → AffState
  | [], st => st
  | idx :: rest, st => afford_loop inp rest (afford_step inp st idx)

/-- `_rule_affordability_signal`: gated on a low/normal amount band;
consolidates all same-band triggers into a single open event.  The final
event list is the creation-order list the source's `self.events` holds
after the loop (each appended event mutated in place until closed). -/
def rule_affordability_signal (inp : GenInput) : List Event :=
  if inp.ctx.amount_band = low_s ∨ inp.ctx.amount_band = normal_s then
    let st := afford_loop inp (List.range inp.sentences.length) ⟨[], none, 0⟩
    st.closed ++ st.openEv.toList
  else []

/-- Python `max` on a natural-number list (only applied to nonempty
lists in the source). -/
def pyMax (l : List ℕ) : ℕ := l.foldl max 0

/-- The `product_push` list of `_rule_pressure_review`: product-reference
marker sentences in `(idx, idx+2]`, clamped to the call bounds. -/
def pressure_pp (inp : GenInput) (idx : ℕ) : List ℕ :=
  (rangeList (idx + 1) (min inp.sentences.length (idx + 3))).filter
    (fun i => has_marker_type inp i product_reference_s)

/-- The `agree_idx` list of `_rule_pressure_review`: agreement-pattern
sentences within two sentences after the latest product push. -/
def pressure_ag (inp : GenInput) (idx : ℕ) : List ℕ :=
  (rangeList (pyMax (pressure_pp inp idx) + 1)
    (min inp.sentences.length (pyMax (pressure_pp inp idx) + 3))).filter
    (fun i => has_indicator inp i agreement_pattern_s)

/-- One iteration of `_rule_pressure_review`: hesitation at `idx`, a
product reference in `(idx, idx+2]`, then an agreement pattern within two
sentences after the latest product reference. -/
def pressure_check (inp : GenInput) (idx : ℕ) : Option Event :=
  if (has_indicator inp idx speed_deviation_s || has_indicator inp idx pause_count_increase_s)
      = false then none
  else if pressure_pp inp idx = [] then none
  else if pressure_ag inp idx = [] then none
  else some (mk_event inp pressure_review_s idx
    [Evd.indicatorAt hesitation_s idx,
     Evd.markerList product_reference_s (pressure_pp inp idx),
     Evd.indicatorList agreement_pattern_s (pressure_ag inp idx)]
    ("Hesitation, product push, agreement pattern: " ++ toString idx
      ++ " then " ++ toString (pressure_pp inp idx)
      ++ " then " ++ toString (pressure_ag inp idx))
    manual_review_s)

/-- `_rule_pressure_review` over `range(len(sentences) - 2)`. -/
def rule_pressure_review (inp : GenInput) : List Event :=
  (List.range (inp.sentences.length - 2)).filterMap (pressure_check inp)

/-- The qualifying PII markers of one marker record: `potential_pii` with
a `phone_pattern` or `account_pattern` category. -/
def pii_qual (ms : List GMarker) : List GMarker :=
  ms.filter (fun mk => decide (mk.type = potential_pii_s
    ∧ (mk.category = some phone_pattern_s ∨ mk.category = some account_pattern_s)))

/-- The positional scan of `_rule_pii_sensitive`, which returns from the
whole rule on the first qualifying record (one flag per call). -/
def rule_pii_aux (inp : GenInput) : ℕ → List (List GMarker) → List Event
  | _, [] => []
  | idx, ms :: rest =>
    match pii_qual ms with
    | [] => rule_pii_aux inp (idx + 1) rest
    | p :: _ =>
      [mk_event inp pii_sensitive_call_s idx
        [Evd.piiMarker p.category idx]
        ("PII (" ++ p.category.getD empty_s ++ ") disclosed at sentence " ++ toString idx)
        restricted_access_s]

def rule_pii_sensitive (inp : GenInput) : List Event :=
  rule_pii_aux inp 0 inp.markers

/-- `_rule_consent_gap`: regulatory prompt, no commitment in the next
three sentences, a data-quality issue in the next three sentences. -/
def rule_consent_gap (inp : GenInput) : List Event :=
  (List.range inp.markers.length).filterMap (fun idx =>
    if has_marker_type inp idx regulatory_prompt_s = false then none
    else if (rangeList (idx + 1) (min inp.sentences.length (idx + 4))).filter
        (fun i => has_marker_type inp i customer_commitment_s) ≠ [] then none
    else
      let dq := (rangeList (idx + 1) (min inp.sentences.length (idx + 4))).filter
        (fun i => has_indicator inp i data_quality_issue_s)
      if dq = [] then none
      else some (mk_event inp consent_uncertainty_s idx
        [Evd.markerAt regulatory_prompt_s idx, Evd.indicatorList data_quality_issue_s dq]
        ("Consent prompt at " ++ toString idx ++ " with unclear response (data quality issue)")
        compliance_review_s))

/-! ## EventGen.py - generate (candidate accumulation and deduplication) -/

def event_key (e : Event) : String × ℕ := (e.event_type, e.sentence_index)

/-- The first-seen-wins deduplication of `generate` (`seen` set plus
keep-first comprehension). -/
def dedup_aux (seen : List (String × ℕ)) : List Event → List Event
  | [] => []
  | e :: rest =>
    if event_key e ∈ seen then dedup_aux seen rest
    else e :: dedup_aux (event_key e :: seen) rest

def dedup_events (l : List Event) : List Event := dedup_aux [] l

/-- The candidate list in rule-evaluation order, as accumulated in
`self.events` by `generate` before deduplication. -/
def candidate_events (inp : GenInput) : List Event :=
  rule_consent_uncertainty inp ++ rule_affordability_signal inp
    ++ rule_pressure_review inp ++ rule_pii_sensitive inp ++ rule_consent_gap inp

/-- `generate`: the deduplicated event list of the output artifact (the
surrounding summary counts are derived data and elided). -/
def generate (inp : GenInput) : List Event :=
  dedup_events (candidate_events inp)

/-! ## EventProcessor-3.py v1.1.0 - the V2 `EventDetector` rules

`EventDetector` reads markers and signals positionally
(`self.markers[idx]`, out-of-range treated as no match), exactly the
`GenInput` model.  Its `_emit` adds a `speaker_id` field, elided here. -/

/-- `EventDetector._rule_consent_uncertainty` is textually identical to
the EventGen rule. -/
def ep_consent_uncertainty (inp : GenInput) : List Event :=
  rule_consent_uncertainty inp

/-- `EventDetector._rule_affordability_signal`: one event per currency
mention with adjacent hesitation; no band gate and no consolidation. -/
def ep_affordability (inp : GenInput) : List Event :=
  (List.range inp.markers.length).filterMap (fun idx =>
    if has_marker_category inp idx currency_amount_s = false then none
    else
      let hesitation_range := (rangeList (idx - 1) (min inp.signals.length (idx + 2))).filter
        (fun i => has_indicator inp i speed_deviation_s || has_indicator inp i pause_count_increase_s)
      if hesitation_range = [] then none
      else
        let matched := match (markers_at inp idx).find?
            (fun m => decide (m.category = some currency_amount_s)) with
          | none => empty_s
          | some m => m.matched_text.getD empty_s
        some (mk_event inp affordability_signal_s idx
          [Evd.currency (some matched) idx,
           Evd.hesitation hesitation_range,
           Evd.finCtx inp.ctx.amount_band]
          ("Affordability signal at sentence " ++ toString idx
            ++ ", amount_band=" ++ inp.ctx.amount_band)
          affordability_check_s))

/-- `EventDetector._rule_pressure_review`: urgency language with a sales
prompt within two sentences either side and hesitation within one. -/
def ep_pressure (inp : GenInput) : List Event :=
  (List.range inp.markers.length).filterMap (fun idx =>
    if has_marker_type inp idx urgency_language_s = false then none
    else
      let nearby_sales := (rangeList (idx - 2) (min inp.markers.length (idx + 3))).filter
        (fun i => has_marker_type inp i sales_prompt_s)
      if nearby_sales = [] then none
      else if ((rangeList (idx - 1) (min inp.signals.length (idx + 2))).any
          (fun i => has_indicator inp i speed_deviation_s
            || has_indicator inp i pause_count_increase_s)) = false then none
      else some (mk_event inp pressure_review_s idx
        [Evd.markerAt urgency_language_s idx,
         Evd.markerList sales_prompt_s nearby_sales,
         Evd.indicatorOnly behavioral_hesitation_s]
        ("Pressure pattern at sentence " ++ toString idx
          ++ " with sales prompt at " ++ toString nearby_sales)
        sales_conduct_review_s))

/-- `EventDetector._rule_pii_sensitive_call`: gated on high product
sensitivity; one event per `pii_disclosure` marker record (no early
return). -/
def ep_pii (inp : GenInput) : List Event :=
  if inp.ctx.product_sensitivity ≠ high_s then []
  else (List.range inp.markers.length).filterMap (fun idx =>
    if has_marker_type inp idx pii_disclosure_s = false then none
    else some (mk_event inp pii_sensitive_call_s idx
      [Evd.markerAt pii_disclosure_s idx, Evd.ctxSensitivity high_s]
      ("PII disclosed in high-sensitivity product context at sentence " ++ toString idx)
      access_control_review_s))

/-- `EventDetector._rule_consent_gap`: whole-call variant - no regulatory
prompt anywhere, some financial entity, one event per commitment. -/
def ep_consent_gap (inp : GenInput) : List Event :=
  if (List.range inp.markers.length).any
      (fun i => has_marker_type inp i regulatory_prompt_s) then []
  else if ((List.range inp.markers.length).any
      (fun i => has_marker_type inp i financial_entity_s)) = false then []
  else (List.range inp.markers.length).filterMap (fun idx =>
    if has_marker_type inp idx customer_commitment_s = false then none
    else some (mk_event inp consent_gap_s idx
      [Evd.markerAt customer_commitment_s idx, Evd.markerOnly no_reg_prompt_s]
      ("Customer commitment at sentence " ++ toString idx
        ++ " with no regulatory disclosure in call")
      compliance_escalation_s))

/-- `EventDetector.detect`: the five rules in call order; the V2 engine
applies no deduplication to the accumulated list. -/
def ep_detect (inp : GenInput) : List Event :=
  ep_consent_uncertainty inp ++ ep_affordability inp ++ ep_pressure inp
    ++ ep_pii inp ++ ep_consent_gap inp

/-! ## EventProcessor-3.py - interpretation fallback layer -/

/-- One record of the `FALLBACK_ANALYSIS` table (before the provenance
tag is attached). -/
structure FallbackRec where
  summary : String
  risk_level : String
  recommended_action : String
  confidence : ℚ
deriving DecidableEq, Repr

/-- An interpretation record as attached under `llm_analysis`. -/
structure Analysis where
  summary : String
  risk_level : String
  recommended_action : String
  confidence : ℚ
  analysis_source : String
deriving DecidableEq, Repr

/-- The static `FALLBACK_ANALYSIS` table, keyed by event type. -/
def FALLBACK_ANALYSIS (event_type : String) : Option FallbackRec :=
  if event_type = commitment_without_consent_s then
    some { summary := "Customer commitment recorded without clear prior consent prompt"
           risk_level := high_s
           recommended_action := "Compliance review required - consent gap"
           confidence := 7/10 }
  else if event_type = consent_gap_s then
    some { summary := "Potential compliance gap detected - consent/disclosure may be unclear"
           risk_level := high_s
           recommended_action := "Compliance team review required"
           confidence := 6/10 }
  else if event_type = affordability_signal_s then
    some { summary := "Customer showed hesitation when discussing pricing"
           risk_level := medium_s
           recommended_action := "Consider offering payment options or alternatives"
           confidence := 6/10 }
  else if event_type = pressure_review_s then
    some { summary := "Sales pressure pattern detected near customer hesitation"
           risk_level := medium_s
           recommended_action := "Review call for sales conduct compliance"
           confidence := 6/10 }
  else if event_type = pii_sensitive_call_s then
    some { summary := "Personally identifiable information was disclosed during call"
           risk_level := high_s
           recommended_action := "Apply restricted access controls to this call record"
           confidence := 8/10 }
  else none

/-- `get_fallback_analysis`: table lookup with the generic default for
unknown event types, tagged with `analysis_source = "fallback"`. -/
def get_fallback_analysis (e : Event) : Analysis :=
  let base := (FALLBACK_ANALYSIS e.event_type).getD
    { summary := "Event detected: " ++ e.event_type
      risk_level := medium_s
      recommended_action := "Manual review recommended"
      confidence := 1/2 }
  { summary := base.summary
    risk_level := base.risk_level
    recommended_action := base.recommended_action
    confidence := base.confidence
    analysis_source := fallback_s }

/-- `interpret_events` with `enable_llm = False`: the source then sets
`client = None`, so every event takes the `get_fallback_analysis` branch;
the result pairs each event with its `llm_analysis` record
(`{**event, "llm_analysis": analysis}`). -/
def interpret_events_no_llm (events : List Event) : List (Event × Analysis) :=
  events.map (fun e => (e, get_fallback_analysis e))

/-! ## Deduplication lemmas (EventGen `generate`) -/

lemma dedup_aux_key_not_seen (l : List Event) :
    ∀ seen, ∀ e ∈ dedup_aux seen l, event_key e ∉ seen := by
  induction l with
  | nil => intro seen e he; simp [dedup_aux] at he
  | cons a rest ih =>
    intro seen e he
    by_cases ha : event_key a ∈ seen
    · rw [dedup_aux, if_pos ha] at he
      exact ih seen e he
    · rw [dedup_aux, if_neg ha] at he
      rcases List.mem_cons.mp he with h | h
      · subst h; exact ha
      · intro hk
        exact ih (event_key a :: seen) e h (List.mem_cons_of_mem _ hk)

lemma dedup_aux_pairwise (l : List Event) :
    ∀ seen, (dedup_aux seen l).Pairwise (fun a b => event_key a ≠ event_key b) := by
  induction l with
  | nil => intro seen; simp [dedup_aux]
  | cons a rest ih =>
    intro seen
    by_cases ha : event_key a ∈ seen
    · rw [dedup_aux, if_pos ha]; exact ih seen
    · rw [dedup_aux, if_neg ha]
      refine List.Pairwise.cons ?_ (ih (event_key a :: seen))
      intro b hb hkey
      exact dedup_aux_key_not_seen rest (event_key a :: seen) b hb
        (by rw [← hkey]; exact List.mem_cons_self _ _)

lemma dedup_aux_filter_eq (l : List Event) :
    ∀ seen (k : String × ℕ),
      (dedup_aux seen l).filter (fun e => decide (event_key e = k)) =
        if k ∈ seen then []
        else (l.filter (fun e => decide (event_key e = k))).take 1 := by
  induction l with
  | nil => intro seen k; simp [dedup_aux]
  | cons a rest ih =>
    intro seen k
    by_cases ha : event_key a ∈ seen
    · rw [dedup_aux, if_pos ha, ih seen k]
      by_cases hk : k ∈ seen
      · rw [if_pos hk, if_pos hk]
      · rw [if_neg hk, if_neg hk]
        have hak : ¬ event_key a = k := fun h => hk (h ▸ ha)
        simp [List.filter_cons, hak]
    · rw [dedup_aux, if_neg ha]
      by_cases hak : event_key a = k
      · have hk : k ∉ seen := fun h => ha (hak ▸ h)
        rw [if_neg hk]
        have h1 : (dedup_aux (event_key a :: seen) rest).filter
            (fun e => decide (event_key e = k)) = [] := by
          rw [ih (event_key a :: seen) k, if_pos (by rw [← hak]; exact List.mem_cons_self _ _)]
        have hd : (decide (event_key a = k)) = true := by simp [hak]
        rw [List.filter_cons, hd]
        simp only [if_true]
        rw [List.filter_cons, hd]
        simp only [if_true]
        rw [h1]
        simp
      · rw [List.filter_cons]
        have hd : (decide (event_key a = k)) = false := by simp [hak]
        rw [hd]
        simp only [Bool.false_eq_true, if_false]
        rw [ih (event_key a :: seen) k]
        by_cases hk : k ∈ seen
        · rw [if_pos (List.mem_cons_of_mem _ hk), if_pos hk]
        · have hks : k ∉ event_key a :: seen := by
            intro h
            rcases List.mem_cons.mp h with h | h
            · exact hak h.symm
            · exact hk h
          rw [if_neg hks, if_neg hk]
          rw [List.filter_cons, hd]
          simp only [Bool.false_eq_true, if_false]

/-- C1: in every deduplicated event set produced by `generate`, no two
events share the same (event_type, sentence_index) key, and for each key
the surviving event is exactly the first candidate carrying that key in
the rule-evaluation-then-sentence order of the accumulated candidate
list. -/
theorem c1_dedup_first_seen (inp : GenInput) (k : String × ℕ) :
    (generate inp).Pairwise (fun a b => event_key a ≠ event_key b) ∧
    (generate inp).filter (fun e => decide (event_key e = k)) =
      ((candidate_events inp).filter (fun e => decide (event_key e = k))).take 1 := by
  constructor
  · exact dedup_aux_pairwise (candidate_events inp) []
  · rw [generate, dedup_events, dedup_aux_filter_eq (candidate_events inp) [] k,
      if_neg (List.not_mem_nil k)]

/-- C5: with the external explainer disabled, `interpret_events` maps
every event to itself paired with its fallback analysis: no event is
dropped or reordered, every attached analysis carries
`analysis_source = "fallback"`, and an event type absent from the static
table receives the generic record with medium risk and confidence 0.5. -/
theorem c5_fallback_interpretation (events : List Event) :
    (interpret_events_no_llm events).length = events.length ∧
    (interpret_events_no_llm events).map Prod.fst = events ∧
    ∀ p ∈ interpret_events_no_llm events,
      p.2.analysis_source = fallback_s ∧
      (FALLBACK_ANALYSIS p.1.event_type = none →
        p.2.risk_level = medium_s ∧ p.2.confidence = 1/2) := by
  refine ⟨by simp [interpret_events_no_llm], ?_, ?_⟩
  · have h : (Prod.fst ∘ fun e : Event => (e, get_fallback_analysis e)) = id :=
      funext (fun _ => rfl)
    rw [interpret_events_no_llm, List.map_map, h, List.map_id]
  intro p hp
  simp only [interpret_events_no_llm, List.mem_map] at hp
  obtain ⟨e, _, rfl⟩ := hp
  refine ⟨rfl, fun hnone => ?_⟩
  constructor <;> simp [get_fallback_analysis, hnone]

/-- An event whose type is not in the static fallback table. -/
def c5_mystery_event : Event :=
  { event_type := "mystery_event"
    sentence_index := 0
    tstart := 0
    tend := 0
    evidence := []
    amount_band := low_s
    product_sensitivity := high_s
    explanation := empty_s
    suggested_action := empty_s }

theorem c5_fallback_interpretation_witness :
    (c5_mystery_event, get_fallback_analysis c5_mystery_event) ∈
      interpret_events_no_llm [c5_mystery_event] ∧
    FALLBACK_ANALYSIS c5_mystery_event.event_type = none ∧
    (get_fallback_analysis c5_mystery_event).analysis_source = fallback_s ∧
    (get_fallback_analysis c5_mystery_event).risk_level = medium_s ∧
    (get_fallback_analysis c5_mystery_event).confidence = 1/2 := by
  have hmem : (c5_mystery_event, get_fallback_analysis c5_mystery_event) ∈
      interpret_events_no_llm [c5_mystery_event] := List.mem_singleton.mpr rfl
  have hnone : FALLBACK_ANALYSIS c5_mystery_event.event_type = none := by
    simp [FALLBACK_ANALYSIS, c5_mystery_event, commitment_without_consent_s,
      consent_gap_s, affordability_signal_s, pressure_review_s, pii_sensitive_call_s]
  have h := (c5_fallback_interpretation [c5_mystery_event]).2.2
    (c5_mystery_event, get_fallback_analysis c5_mystery_event) hmem
  exact ⟨hmem, hnone, h.1, (h.2 hnone).1, (h.2 hnone).2⟩

/-! ## Rounding lemmas -/

/-- round2 is the identity on exact hundredths. -/
lemma round2_eq_grid (q : ℚ) (n : ℤ) (h : q * 100 = (n : ℚ)) : round2 q = (n : ℚ) / 100 := by
  simp only [round2, h, Int.floor_intCast, sub_self]
  norm_num

lemma round2_half : round2 (1/2) = 1/2 := by
  rw [round2_eq_grid (1/2) 50 (by norm_num)]; norm_num

lemma round2_one : round2 1 = 1 := by
  rw [round2_eq_grid 1 100 (by norm_num)]; norm_num

lemma round2_nine_tenths : round2 (9/10) = 9/10 := by
  rw [round2_eq_grid (9/10) 90 (by norm_num)]; norm_num

/-! ## Warmup lemmas (Interpret.py) -/

lemma speed_block_warmup (m : Metrics) (b : Baselines) : speed_block m b true = [] := by
  cases hb : b.speed <;> simp [speed_block, hb]

lemma pause_block_warmup (m : Metrics) (b : Baselines) : pause_block m b true = [] := by
  cases hb : b.pause_count <;> simp [pause_block, hb]

lemma filler_block_warmup (m : Metrics) (b : Baselines) : filler_block m b true = [] := by
  cases hb : b.filler_count <;> simp [filler_block, hb]

lemma word_count_block_warmup (m : Metrics) (b : Baselines) :
    word_count_block m b true = [] := by
  cases hb : b.word_count <;> simp [word_count_block, hb]

lemma agreement_block_warmup (m : Metrics) (p : Option ℕ) :
    agreement_block m p true = [] := by
  cases p <;> simp [agreement_block]

lemma detect_indicators_warmup (m : Metrics) (b : Baselines) (p : Option ℕ) :
    ∀ ind ∈ (detect_indicators m b p true).1, ind.indicator = data_quality_issue_s := by
  intro ind hind
  rw [detect_indicators] at hind
  by_cases hc : 0 < m.confidence ∧ m.confidence < LOW_CONFIDENCE_THRESHOLD
  · rw [if_pos hc] at hind
    rcases List.mem_singleton.mp hind with rfl
    rfl
  · rw [if_neg hc] at hind
    simp only [speed_block_warmup, pause_block_warmup, filler_block_warmup,
      word_count_block_warmup, agreement_block_warmup, List.append_nil] at hind
    simp at hind

/-- Every output record of the `transform` loop carries the indicator list
computed by `detect_indicators` at its own index, with the warmup flag
derived from that index. -/
lemma transform_aux_indicators (l : List SentenceIn) :
    ∀ idx st, ∀ o ∈ transform_aux idx st l,
      ∃ m b p, o.indicators =
        (detect_indicators m b p (decide (o.sentence_index < WARMUP_SENTENCES))).1 := by
  induction l with
  | nil => intro idx st o ho; simp [transform_aux] at ho
  | cons s rest ih =>
    intro idx st o ho
    rw [transform_aux] at ho
    rcases List.mem_cons.mp ho with h | h
    · subst h
      exact ⟨metricsOf s, baselinesOf st.hist, st.prev_word_count, rfl⟩
    · exact ih (idx + 1) (step_sentence idx st s).1 o h

/-- C9: no baseline-referencing deviation indicator is ever emitted for a
sentence whose index is below WARMUP = 5; during warmup only
`data_quality_issue` can appear. -/
theorem c9_warmup_only_data_quality (sentences : List SentenceIn) (o : SentOut)
    (ho : o ∈ transform sentences) (hw : o.sentence_index < WARMUP_SENTENCES) :
    ∀ ind ∈ o.indicators, ind.indicator = data_quality_issue_s := by
  obtain ⟨m, b, p, hind⟩ := transform_aux_indicators sentences 0 TState.init o ho
  rw [hind, decide_eq_true hw]
  exact detect_indicators_warmup m b p

def c9_input : List SentenceIn :=
  [{ text := "hello", tstart := 0, tend := 1,
     speech := { word_count := 2, confidence := 1/10, speed_wpm := 100,
                 pause_count := 0, pause_duration := 0, filler_count := 0 } }]

lemma c9_input_transform :
    transform c9_input = [⟨0, [⟨data_quality_issue_s, 9/10⟩]⟩] := by
  norm_num [transform, transform_aux, step_sentence, TState.init, Hist.empty, metricsOf,
    baselinesOf, get_baseline, detect_indicators, c9_input, LOW_CONFIDENCE_THRESHOLD,
    update_hist, round2_nine_tenths]

theorem c9_warmup_only_data_quality_witness :
    (⟨0, [⟨data_quality_issue_s, 9/10⟩]⟩ : SentOut) ∈ transform c9_input ∧
    (⟨0, [⟨data_quality_issue_s, 9/10⟩]⟩ : SentOut).sentence_index < WARMUP_SENTENCES ∧
    (⟨data_quality_issue_s, (9/10 : ℚ)⟩ : Indicator).indicator = data_quality_issue_s := by
  have hmem : (⟨0, [⟨data_quality_issue_s, 9/10⟩]⟩ : SentOut) ∈ transform c9_input := by
    rw [c9_input_transform]; exact List.mem_singleton.mpr rfl
  refine ⟨hmem, by norm_num [WARMUP_SENTENCES], ?_⟩
  exact c9_warmup_only_data_quality c9_input _ hmem (by norm_num [WARMUP_SENTENCES])
    ⟨data_quality_issue_s, (9/10 : ℚ)⟩ (List.mem_singleton.mpr rfl)

/-! ## C3: the low-confidence gate -/

/-- C3 counterexample input: a sentence whose confidence is the 0
sentinel, hence below the 0.3 threshold. -/
def c3_cx_sentence : SentenceIn :=
  { text := "hello", tstart := 0, tend := 1,
    speech := { word_count := 3, confidence := 0, speed_wpm := 120,
                pause_count := 1, pause_duration := 0, filler_count := 0 } }

/-- C3 counterexample: a sentence with confidence 0 (below 0.3) emits no
`data_quality_issue` indicator at all, and its pause_count is appended to
the pause baseline history, contradicting the claim as stated for
confidence values below 0.3 that are not strictly positive. -/
theorem c3_counterexample :
    c3_cx_sentence.speech.confidence = 0 ∧
    c3_cx_sentence.speech.confidence < LOW_CONFIDENCE_THRESHOLD ∧
    transform [c3_cx_sentence] = [⟨0, []⟩] ∧
    (step_sentence 0 TState.init c3_cx_sentence).1.hist.pause = [(1 : ℚ)] := by
  refine ⟨rfl, by norm_num [c3_cx_sentence, LOW_CONFIDENCE_THRESHOLD], ?_, ?_⟩
  · norm_num [transform, transform_aux, step_sentence, TState.init, Hist.empty, metricsOf,
      baselinesOf, get_baseline, detect_indicators, c3_cx_sentence, LOW_CONFIDENCE_THRESHOLD,
      update_hist, speed_block, pause_block, filler_block, word_count_block, agreement_block]
  · norm_num [step_sentence, TState.init, Hist.empty, metricsOf, baselinesOf, get_baseline,
      detect_indicators, c3_cx_sentence, LOW_CONFIDENCE_THRESHOLD, update_hist, speed_block,
      pause_block, filler_block, word_count_block, agreement_block]

/-- C3 amended: a sentence with 0 < confidence < 0.3 emits exactly the
single `data_quality_issue` indicator with grade `round2 (1 - confidence)`
and contributes none of its metric values to any baseline history (the
confidence-0 sentinel does not trigger the gate, and the emitted grade is
the source's two-decimal rounding of 1 - confidence). -/
theorem c3_amended_low_confidence (idx : ℕ) (st : TState) (s : SentenceIn)
    (h0 : 0 < s.speech.confidence) (h1 : s.speech.confidence < LOW_CONFIDENCE_THRESHOLD) :
    (step_sentence idx st s).2.indicators =
      [⟨data_quality_issue_s, round2 (1 - s.speech.confidence)⟩] ∧
    (step_sentence idx st s).1.hist = st.hist := by
  have hdq : detect_indicators (metricsOf s) (baselinesOf st.hist) st.prev_word_count
      (decide (idx < WARMUP_SENTENCES)) =
      ([⟨data_quality_issue_s, round2 (1 - s.speech.confidence)⟩], true) := by
    rw [detect_indicators, if_pos (⟨h0, h1⟩ :
      0 < (metricsOf s).confidence ∧ (metricsOf s).confidence < LOW_CONFIDENCE_THRESHOLD)]
    rfl
  constructor
  · simp [step_sentence, hdq]
  · simp [step_sentence, hdq, update_hist]

def c3_w_sentence : SentenceIn :=
  { text := "ok", tstart := 0, tend := 1,
    speech := { word_count := 1, confidence := 1/10, speed_wpm := 90,
                pause_count := 2, pause_duration := 0, filler_count := 1 } }

theorem c3_amended_low_confidence_witness :
    0 < c3_w_sentence.speech.confidence ∧
    c3_w_sentence.speech.confidence < LOW_CONFIDENCE_THRESHOLD ∧
    (step_sentence 7 TState.init c3_w_sentence).2.indicators =
      [⟨data_quality_issue_s, round2 (1 - c3_w_sentence.speech.confidence)⟩] ∧
    (step_sentence 7 TState.init c3_w_sentence).1.hist = TState.init.hist := by
  have h := c3_amended_low_confidence 7 TState.init c3_w_sentence
    (by norm_num [c3_w_sentence]) (by norm_num [c3_w_sentence, LOW_CONFIDENCE_THRESHOLD])
  exact ⟨by norm_num [c3_w_sentence], by norm_num [c3_w_sentence, LOW_CONFIDENCE_THRESHOLD],
    h.1, h.2⟩

/-! ## Block membership lemmas (Interpret.py) -/

lemma speed_block_names (m : Metrics) (b : Baselines) (w : Bool) :
    ∀ x ∈ speed_block m b w, x.indicator = speed_deviation_s := by
  intro x hx
  cases hb : b.speed
  · simp only [speed_block, hb] at hx
    exact absurd hx (List.not_mem_nil x)
  · simp only [speed_block, hb] at hx
    split_ifs at hx
    · rcases List.mem_singleton.mp hx with rfl; rfl
    · exact absurd hx (List.not_mem_nil x)
    · exact absurd hx (List.not_mem_nil x)

lemma pause_block_names (m : Metrics) (b : Baselines) (w : Bool) :
    ∀ x ∈ pause_block m b w, x.indicator = pause_count_increase_s := by
  intro x hx
  cases hb : b.pause_count
  · simp only [pause_block, hb] at hx
    exact absurd hx (List.not_mem_nil x)
  · simp only [pause_block, hb] at hx
    split_ifs at hx <;>
      first
      | exact absurd hx (List.not_mem_nil x)
      | (rcases List.mem_singleton.mp hx with rfl; rfl)

lemma filler_block_names (m : Metrics) (b : Baselines) (w : Bool) :
    ∀ x ∈ filler_block m b w, x.indicator = filler_increase_s := by
  intro x hx
  cases hb : b.filler_count
  · simp only [filler_block, hb] at hx
    exact absurd hx (List.not_mem_nil x)
  · simp only [filler_block, hb] at hx
    split_ifs at hx <;>
      first
      | exact absurd hx (List.not_mem_nil x)
      | (rcases List.mem_singleton.mp hx with rfl; rfl)

lemma word_count_block_names (m : Metrics) (b : Baselines) (w : Bool) :
    ∀ x ∈ word_count_block m b w, x.indicator = word_count_deviation_s := by
  intro x hx
  cases hb : b.word_count
  · simp only [word_count_block, hb] at hx
    exact absurd hx (List.not_mem_nil x)
  · simp only [word_count_block, hb] at hx
    split_ifs at hx
    · rcases List.mem_singleton.mp hx with rfl; rfl
    · exact absurd hx (List.not_mem_nil x)
    · exact absurd hx (List.not_mem_nil x)

lemma agreement_block_names (m : Metrics) (p : Option ℕ) (w : Bool) :
    ∀ x ∈ agreement_block m p w, x.indicator = agreement_pattern_s := by
  intro x hx
  cases hp : p
  · simp only [agreement_block, hp] at hx
    exact absurd hx (List.not_mem_nil x)
  · rcases hm : pyWords (pyLower m.text) with _ | ⟨t, ts⟩ <;>
      simp only [agreement_block, hp, hm] at hx <;>
      split_ifs at hx <;>
        first
        | exact absurd hx (List.not_mem_nil x)
        | (rcases List.mem_singleton.mp hx with rfl; rfl)

/-- Membership in the pause block forces a defined baseline strictly
below the current pause count. -/
lemma pause_block_strict (m : Metrics) (b : Baselines) (w : Bool) :
    ∀ x ∈ pause_block m b w, ∃ bp, b.pause_count = some bp ∧ bp < (m.pause_count : ℚ) := by
  intro x hx
  cases hb : b.pause_count
  · simp only [pause_block, hb] at hx
    exact absurd hx (List.not_mem_nil x)
  · rename_i bp
    refine ⟨bp, rfl, ?_⟩
    simp only [pause_block, hb] at hx
    by_cases h1 : w = false ∧ (m.pause_count : ℚ) > bp
    · exact h1.2
    · rw [if_neg h1] at hx
      exact absurd hx (List.not_mem_nil x)

/-- Membership in the filler block forces a defined baseline strictly
below the current filler count. -/
lemma filler_block_strict (m : Metrics) (b : Baselines) (w : Bool) :
    ∀ x ∈ filler_block m b w, ∃ bf, b.filler_count = some bf ∧ bf < (m.filler_count : ℚ) := by
  intro x hx
  cases hb : b.filler_count
  · simp only [filler_block, hb] at hx
    exact absurd hx (List.not_mem_nil x)
  · rename_i bf
    refine ⟨bf, rfl, ?_⟩
    simp only [filler_block, hb] at hx
    by_cases h1 : w = false ∧ (m.filler_count : ℚ) > bf
    · exact h1.2
    · rw [if_neg h1] at hx
      exact absurd hx (List.not_mem_nil x)

/-- Zero-baseline pause emission: with a pause baseline of exactly 0 and
at least one pause, the block emits the fixed 0.5 override grade. -/
lemma pause_block_zero_baseline (m : Metrics) (b : Baselines)
    (hb : b.pause_count = some 0) (hc : 1 ≤ m.pause_count) :
    pause_block m b false = [⟨pause_count_increase_s, 1/2⟩] := by
  have h1 : (0 : ℚ) < (m.pause_count : ℚ) := by exact_mod_cast hc
  simp only [pause_block, hb]
  rw [if_pos ⟨trivial, h1⟩, if_neg (lt_irrefl (0 : ℚ)),
    if_pos (by norm_num [GRADE_THRESHOLD] : (1/2 : ℚ) ≥ GRADE_THRESHOLD), round2_half]

/-- Zero-baseline filler emission: with a filler baseline of exactly 0 and
at least one filler, the block emits the fixed 0.5 override grade. -/
lemma filler_block_zero_baseline (m : Metrics) (b : Baselines)
    (hb : b.filler_count = some 0) (hc : 1 ≤ m.filler_count) :
    filler_block m b false = [⟨filler_increase_s, 1/2⟩] := by
  have h1 : (0 : ℚ) < (m.filler_count : ℚ) := by exact_mod_cast hc
  simp only [filler_block, hb]
  rw [if_pos ⟨trivial, h1⟩, if_neg (lt_irrefl (0 : ℚ)), if_pos hc,
    if_pos (by norm_num [GRADE_THRESHOLD] : (1/2 : ℚ) ≥ GRADE_THRESHOLD), round2_half]

/-- C7: pause_count_increase and filler_increase are emitted only when
the current count strictly exceeds the defined baseline (never on a
decrease or equality), and when the baseline is exactly 0 with a current
count of at least 1 the emitted indicator carries the fixed override
grade 0.5 instead of a division by zero. -/
theorem c7_increase_only_zero_override (m : Metrics) (b : Baselines) (p : Option ℕ)
    (w : Bool) :
    (∀ ind ∈ (detect_indicators m b p w).1,
      (ind.indicator = pause_count_increase_s →
        ∃ bp, b.pause_count = some bp ∧ bp < (m.pause_count : ℚ)) ∧
      (ind.indicator = filler_increase_s →
        ∃ bf, b.filler_count = some bf ∧ bf < (m.filler_count : ℚ))) ∧
    (b.pause_count = some 0 → 1 ≤ m.pause_count → w = false →
      ¬(0 < m.confidence ∧ m.confidence < LOW_CONFIDENCE_THRESHOLD) →
      (⟨pause_count_increase_s, 1/2⟩ : Indicator) ∈ (detect_indicators m b p w).1) ∧
    (b.filler_count = some 0 → 1 ≤ m.filler_count → w = false →
      ¬(0 < m.confidence ∧ m.confidence < LOW_CONFIDENCE_THRESHOLD) →
      (⟨filler_increase_s, 1/2⟩ : Indicator) ∈ (detect_indicators m b p w).1) := by
  have hne1 : data_quality_issue_s ≠ pause_count_increase_s := by decide
  have hne2 : data_quality_issue_s ≠ filler_increase_s := by decide
  have hne3 : speed_deviation_s ≠ pause_count_increase_s := by decide
  have hne4 : speed_deviation_s ≠ filler_increase_s := by decide
  have hne5 : word_count_deviation_s ≠ pause_count_increase_s := by decide
  have hne6 : word_count_deviation_s ≠ filler_increase_s := by decide
  have hne7 : agreement_pattern_s ≠ pause_count_increase_s := by decide
  have hne8 : agreement_pattern_s ≠ filler_increase_s := by decide
  have hne9 : pause_count_increase_s ≠ filler_increase_s := by decide
  have hne10 : filler_increase_s ≠ pause_count_increase_s := by decide
  refine ⟨?_, ?_, ?_⟩
  · intro ind hind
    rw [detect_indicators] at hind
    by_cases hc : 0 < m.confidence ∧ m.confidence < LOW_CONFIDENCE_THRESHOLD
    · rw [if_pos hc] at hind
      rcases List.mem_singleton.mp hind with rfl
      exact ⟨fun h => absurd h hne1, fun h => absurd h hne2⟩
    · rw [if_neg hc] at hind
      simp only [List.mem_append] at hind
      rcases hind with ((((h | h) | h) | h) | h)
      · exact ⟨fun hn => absurd hn ((speed_block_names m b w ind h) ▸ hne3),
          fun hn => absurd hn ((speed_block_names m b w ind h) ▸ hne4)⟩
      · exact ⟨fun _ => pause_block_strict m b w ind h,
          fun hn => absurd hn ((pause_block_names m b w ind h) ▸ hne9)⟩
      · exact ⟨fun hn => absurd hn ((filler_block_names m b w ind h) ▸ hne10),
          fun _ => filler_block_strict m b w ind h⟩
      · exact ⟨fun hn => absurd hn ((word_count_block_names m b w ind h) ▸ hne5),
          fun hn => absurd hn ((word_count_block_names m b w ind h) ▸ hne6)⟩
      · exact ⟨fun hn => absurd hn ((agreement_block_names m p w ind h) ▸ hne7),
          fun hn => absurd hn ((agreement_block_names m p w ind h) ▸ hne8)⟩
  · intro hb hcnt hw hlq
    subst hw
    rw [detect_indicators, if_neg hlq]
    simp only [List.mem_append, pause_block_zero_baseline m b hb hcnt]
    simp
  · intro hb hcnt hw hlq
    subst hw
    rw [detect_indicators, if_neg hlq]
    simp only [List.mem_append, filler_block_zero_baseline m b hb hcnt]
    simp

def c7_m : Metrics :=
  { word_count := 0, confidence := 1/2, speed := 0, pause_count := 2,
    pause_duration := 0, filler_count := 1, text := empty_s }

def c7_b : Baselines :=
  { speed := none, pause_count := some 0, confidence := none,
    word_count := none, filler_count := some 0 }

theorem c7_increase_only_zero_override_witness :
    c7_b.pause_count = some 0 ∧ 1 ≤ c7_m.pause_count ∧
    c7_b.filler_count = some 0 ∧ 1 ≤ c7_m.filler_count ∧
    ¬(0 < c7_m.confidence ∧ c7_m.confidence < LOW_CONFIDENCE_THRESHOLD) ∧
    (⟨pause_count_increase_s, 1/2⟩ : Indicator) ∈
      (detect_indicators c7_m c7_b none false).1 ∧
    (⟨filler_increase_s, 1/2⟩ : Indicator) ∈
      (detect_indicators c7_m c7_b none false).1 := by
  have hlq : ¬(0 < c7_m.confidence ∧ c7_m.confidence < LOW_CONFIDENCE_THRESHOLD) := by
    norm_num [c7_m, LOW_CONFIDENCE_THRESHOLD]
  refine ⟨rfl, by norm_num [c7_m], rfl, by norm_num [c7_m], hlq, ?_, ?_⟩
  · exact (c7_increase_only_zero_override c7_m c7_b none false).2.1 rfl
      (by norm_num [c7_m]) rfl hlq
  · exact (c7_increase_only_zero_override c7_m c7_b none false).2.2 rfl
      (by norm_num [c7_m]) rfl hlq

/-! ## C8: grade clamping -/

lemma round2_bounds (q : ℚ) (h0 : 0 ≤ q) (h1 : q ≤ 1) :
    0 ≤ round2 q ∧ round2 q ≤ 1 := by
  have hx0 : (0 : ℚ) ≤ q * 100 := by nlinarith
  have hx100 : q * 100 ≤ 100 := by nlinarith
  have hf0 : (0 : ℤ) ≤ ⌊q * 100⌋ := Int.floor_nonneg.mpr hx0
  have hf0q : (0 : ℚ) ≤ (⌊q * 100⌋ : ℚ) := by exact_mod_cast hf0
  have hfle : (⌊q * 100⌋ : ℚ) ≤ 100 := le_trans (Int.floor_le _) hx100
  have hfloor : (⌊q * 100⌋ : ℚ) ≤ q * 100 := Int.floor_le _
  simp only [round2]
  split_ifs with hr1 hr2 hpar
  · exact ⟨div_nonneg hf0q (by norm_num), by rw [div_le_one (by norm_num)]; exact hfle⟩
  · have h99 : (⌊q * 100⌋ : ℚ) + 1/2 < 100 := by
      have : (1:ℚ)/2 < q * 100 - (⌊q * 100⌋ : ℚ) := hr2
      linarith
    have hfi : ⌊q * 100⌋ ≤ 99 := by
      have : (⌊q * 100⌋ : ℚ) < (99.5 : ℚ) := by linarith
      have h2 : (⌊q * 100⌋ : ℚ) < 100 := by linarith
      have h3 : ⌊q * 100⌋ < 100 := by exact_mod_cast h2
      omega
    constructor
    · apply div_nonneg _ (by norm_num)
      push_cast
      linarith
    · rw [div_le_one (by norm_num)]
      push_cast
      have : ((⌊q * 100⌋ : ℚ) + 1) ≤ 100 := by
        have : (⌊q * 100⌋ : ℚ) ≤ 99 := by exact_mod_cast hfi
        linarith
      linarith
  · exact ⟨div_nonneg hf0q (by norm_num), by rw [div_le_one (by norm_num)]; exact hfle⟩
  · have hr : q * 100 - (⌊q * 100⌋ : ℚ) = 1/2 := le_antisymm (not_lt.mp hr2) (not_lt.mp hr1)
    have hfi : ⌊q * 100⌋ ≤ 99 := by
      have h2 : (⌊q * 100⌋ : ℚ) + 1/2 ≤ 100 := by linarith
      have h3 : (⌊q * 100⌋ : ℚ) < 100 := by linarith
      have h4 : ⌊q * 100⌋ < 100 := by exact_mod_cast h3
      omega
    constructor
    · apply div_nonneg _ (by norm_num)
      push_cast
      linarith
    · rw [div_le_one (by norm_num)]
      push_cast
      have : (⌊q * 100⌋ : ℚ) ≤ 99 := by exact_mod_cast hfi
      linarith

lemma compute_grade_bounds (c b : ℚ) (hb : 0 ≤ b) :
    0 ≤ compute_grade c b ∧ compute_grade c b ≤ 1 := by
  unfold compute_grade
  split_ifs with h
  · norm_num
  · have hb' : 0 < b := lt_of_le_of_ne hb (Ne.symm h)
    exact ⟨le_min (by norm_num) (div_nonneg (abs_nonneg _) hb'.le), min_le_left _ _⟩

lemma get_baseline_nonneg (l : List ℚ) (hl : ∀ x ∈ l, 0 ≤ x) :
    ∀ b, get_baseline l = some b → 0 ≤ b := by
  intro b hb
  cases l with
  | nil => simp [get_baseline] at hb
  | cons a as =>
    simp only [get_baseline] at hb
    rcases Option.some.inj hb with rfl
    apply div_nonneg
    · exact List.sum_nonneg (fun x hx => hl x (List.drop_subset _ _ hx))
    · positivity

/-- Non-negativity of all five measurement histories. -/
def HistNonneg (h : Hist) : Prop :=
  (∀ x ∈ h.speed, 0 ≤ x) ∧ (∀ x ∈ h.pause, 0 ≤ x) ∧ (∀ x ∈ h.confidence, 0 ≤ x) ∧
  (∀ x ∈ h.word_count, 0 ≤ x) ∧ (∀ x ∈ h.filler, 0 ≤ x)

lemma hist_empty_nonneg : HistNonneg Hist.empty := by
  refine ⟨?_, ?_, ?_, ?_, ?_⟩ <;> intro x hx <;> simp [Hist.empty] at hx

lemma update_hist_nonneg (h : Hist) (m : Metrics) (inds : List Indicator) (lq : Bool)
    (hh : HistNonneg h) : HistNonneg (update_hist h m inds lq) := by
  obtain ⟨h1, h2, h3, h4, h5⟩ := hh
  unfold update_hist
  by_cases hcond : lq = false ∧
      (inds.any fun i => decide (i.grade > EXTREME_DEVIATION_THRESHOLD)) = false
  · rw [if_pos hcond]
    refine ⟨?_, ?_, ?_, ?_, ?_⟩
    · intro x hx
      by_cases hs : m.speed > 0
      · rw [if_pos hs] at hx
        rcases List.mem_append.mp hx with hx | hx
        · exact h1 x hx
        · rcases List.mem_singleton.mp hx with rfl; exact hs.le
      · rw [if_neg hs] at hx; exact h1 x hx
    · intro x hx
      rcases List.mem_append.mp hx with hx | hx
      · exact h2 x hx
      · rcases List.mem_singleton.mp hx with rfl; positivity
    · intro x hx
      by_cases hs : m.confidence > 0
      · rw [if_pos hs] at hx
        rcases List.mem_append.mp hx with hx | hx
        · exact h3 x hx
        · rcases List.mem_singleton.mp hx with rfl; exact hs.le
      · rw [if_neg hs] at hx; exact h3 x hx
    · intro x hx
      by_cases hs : m.word_count > 0
      · rw [if_pos hs] at hx
        rcases List.mem_append.mp hx with hx | hx
        · exact h4 x hx
        · rcases List.mem_singleton.mp hx with rfl; positivity
      · rw [if_neg hs] at hx; exact h4 x hx
    · intro x hx
      rcases List.mem_append.mp hx with hx | hx
      · exact h5 x hx
      · rcases List.mem_singleton.mp hx with rfl; positivity
  · rw [if_neg hcond]
    exact ⟨h1, h2, h3, h4, h5⟩

lemma speed_block_bounds (m : Metrics) (b : Baselines) (w : Bool)
    (hb : ∀ v, b.speed = some v → 0 ≤ v) :
    ∀ x ∈ speed_block m b w, 0 ≤ x.grade ∧ x.grade ≤ 1 := by
  intro x hx
  cases hsp : b.speed
  · simp only [speed_block, hsp] at hx; exact absurd hx (List.not_mem_nil x)
  · rename_i bs
    have hbs := hb bs hsp
    simp only [speed_block, hsp] at hx
    split_ifs at hx <;>
      first
      | exact absurd hx (List.not_mem_nil x)
      | (rcases List.mem_singleton.mp hx with rfl
         exact round2_bounds _ (compute_grade_bounds m.speed bs hbs).1
           (compute_grade_bounds m.speed bs hbs).2)

lemma pause_block_bounds (m : Metrics) (b : Baselines) (w : Bool)
    (hb : ∀ v, b.pause_count = some v → 0 ≤ v) :
    ∀ x ∈ pause_block m b w, 0 ≤ x.grade ∧ x.grade ≤ 1 := by
  intro x hx
  cases hsp : b.pause_count
  · simp only [pause_block, hsp] at hx; exact absurd hx (List.not_mem_nil x)
  · rename_i bp
    have hbp := hb bp hsp
    simp only [pause_block, hsp] at hx
    split_ifs at hx <;>
      first
      | exact absurd hx (List.not_mem_nil x)
      | (rcases List.mem_singleton.mp hx with rfl
         exact round2_bounds _ (compute_grade_bounds (m.pause_count : ℚ) bp hbp).1
           (compute_grade_bounds (m.pause_count : ℚ) bp hbp).2)
      | (rcases List.mem_singleton.mp hx with rfl
         exact round2_bounds _ (by norm_num) (by norm_num))

lemma filler_block_bounds (m : Metrics) (b : Baselines) (w : Bool)
    (hb : ∀ v, b.filler_count = some v → 0 ≤ v) :
    ∀ x ∈ filler_block m b w, 0 ≤ x.grade ∧ x.grade ≤ 1 := by
  intro x hx
  cases hsp : b.filler_count
  · simp only [filler_block, hsp] at hx; exact absurd hx (List.not_mem_nil x)
  · rename_i bf
    have hbf := hb bf hsp
    simp only [filler_block, hsp] at hx
    split_ifs at hx <;>
      first
      | exact absurd hx (List.not_mem_nil x)
      | (rcases List.mem_singleton.mp hx with rfl
         exact round2_bounds _ (compute_grade_bounds (m.filler_count : ℚ) bf hbf).1
           (compute_grade_bounds (m.filler_count : ℚ) bf hbf).2)
      | (rcases List.mem_singleton.mp hx with rfl
         exact round2_bounds _ (by norm_num) (by norm_num))

lemma word_count_block_bounds (m : Metrics) (b : Baselines) (w : Bool)
    (hb : ∀ v, b.word_count = some v → 0 ≤ v) :
    ∀ x ∈ word_count_block m b w, 0 ≤ x.grade ∧ x.grade ≤ 1 := by
  intro x hx
  cases hsp : b.word_count
  · simp only [word_count_block, hsp] at hx; exact absurd hx (List.not_mem_nil x)
  · rename_i bw
    have hbw := hb bw hsp
    simp only [word_count_block, hsp] at hx
    split_ifs at hx <;>
      first
      | exact absurd hx (List.not_mem_nil x)
      | (rcases List.mem_singleton.mp hx with rfl
         exact round2_bounds _ (compute_grade_bounds (m.word_count : ℚ) bw hbw).1
           (compute_grade_bounds (m.word_count : ℚ) bw hbw).2)

lemma agreement_block_bounds (m : Metrics) (p : Option ℕ) (w : Bool) :
    ∀ x ∈ agreement_block m p w, 0 ≤ x.grade ∧ x.grade ≤ 1 := by
  intro x hx
  cases hp : p
  · simp only [agreement_block, hp] at hx
    exact absurd hx (List.not_mem_nil x)
  · rename_i prev
    have hg : 0 ≤ min (1:ℚ) ((prev : ℚ) / ((m.word_count : ℚ) * 3)) ∧
        min (1:ℚ) ((prev : ℚ) / ((m.word_count : ℚ) * 3)) ≤ 1 := by
      constructor
      · by_cases hwc : (0:ℚ) < (m.word_count : ℚ) * 3
        · exact le_min (by norm_num) (div_nonneg (by positivity) hwc.le)
        · have hz : (m.word_count : ℚ) * 3 = 0 := by
            have : (0:ℚ) ≤ (m.word_count : ℚ) * 3 := by positivity
            linarith [not_lt.mp hwc]
          rw [hz, div_zero]
          norm_num
      · exact min_le_left _ _
    rcases hm : pyWords (pyLower m.text) with _ | ⟨t, ts⟩ <;>
      simp only [agreement_block, hp, hm] at hx <;>
      split_ifs at hx <;>
        first
        | exact absurd hx (List.not_mem_nil x)
        | (rcases List.mem_singleton.mp hx with rfl
           exact round2_bounds _ hg.1 hg.2)
        | (rcases List.mem_singleton.mp hx with rfl
           exact round2_bounds _ (by norm_num) (by norm_num))

lemma detect_indicators_bounds (m : Metrics) (b : Baselines) (p : Option ℕ) (w : Bool)
    (h1 : ∀ v, b.speed = some v → 0 ≤ v)
    (h2 : ∀ v, b.pause_count = some v → 0 ≤ v)
    (h3 : ∀ v, b.word_count = some v → 0 ≤ v)
    (h4 : ∀ v, b.filler_count = some v → 0 ≤ v) :
    ∀ ind ∈ (detect_indicators m b p w).1, 0 ≤ ind.grade ∧ ind.grade ≤ 1 := by
  intro ind hind
  rw [detect_indicators] at hind
  by_cases hc : 0 < m.confidence ∧ m.confidence < LOW_CONFIDENCE_THRESHOLD
  · rw [if_pos hc] at hind
    rcases List.mem_singleton.mp hind with rfl
    have hlt : m.confidence < 1 := lt_trans hc.2 (by norm_num [LOW_CONFIDENCE_THRESHOLD])
    exact round2_bounds _ (by linarith) (by linarith [hc.1])
  · rw [if_neg hc] at hind
    simp only [List.mem_append] at hind
    rcases hind with ((((h | h) | h) | h) | h)
    · exact speed_block_bounds m b w h1 ind h
    · exact pause_block_bounds m b w h2 ind h
    · exact filler_block_bounds m b w h4 ind h
    · exact word_count_block_bounds m b w h3 ind h
    · exact agreement_block_bounds m p w ind h

lemma baselinesOf_nonneg (h : Hist) (hh : HistNonneg h) :
    (∀ v, (baselinesOf h).speed = some v → 0 ≤ v) ∧
    (∀ v, (baselinesOf h).pause_count = some v → 0 ≤ v) ∧
    (∀ v, (baselinesOf h).word_count = some v → 0 ≤ v) ∧
    (∀ v, (baselinesOf h).filler_count = some v → 0 ≤ v) := by
  obtain ⟨h1, h2, h3, h4, h5⟩ := hh
  exact ⟨fun v hv => get_baseline_nonneg h.speed h1 v hv,
    fun v hv => get_baseline_nonneg h.pause h2 v hv,
    fun v hv => get_baseline_nonneg h.word_count h4 v hv,
    fun v hv => get_baseline_nonneg h.filler h5 v hv⟩

lemma transform_aux_bounds (l : List SentenceIn) :
    ∀ idx st, HistNonneg st.hist → ∀ o ∈ transform_aux idx st l,
      ∀ ind ∈ o.indicators, 0 ≤ ind.grade ∧ ind.grade ≤ 1 := by
  induction l with
  | nil => intro idx st _ o ho; simp [transform_aux] at ho
  | cons s rest ih =>
    intro idx st hst o ho
    rw [transform_aux] at ho
    rcases List.mem_cons.mp ho with h | h
    · subst h
      obtain ⟨hb1, hb2, hb3, hb4⟩ := baselinesOf_nonneg st.hist hst
      exact detect_indicators_bounds (metricsOf s) (baselinesOf st.hist)
        st.prev_word_count (decide (idx < WARMUP_SENTENCES)) hb1 hb2 hb3 hb4
    · exact ih (idx + 1) (step_sentence idx st s).1
        (update_hist_nonneg st.hist (metricsOf s) _ _ hst) o h

/-- C8: every indicator emitted by `transform`, for any input call, has a
grade in [0, 1]; the emission guards themselves enforce the data-model
ranges the claim assumes, so no hypothesis on the input is required. -/
theorem c8_grade_clamped (sentences : List SentenceIn) :
    ∀ o ∈ transform sentences, ∀ ind ∈ o.indicators, 0 ≤ ind.grade ∧ ind.grade ≤ 1 :=
  transform_aux_bounds sentences 0 TState.init hist_empty_nonneg

def c8_input : List SentenceIn :=
  [{ text := "hi there", tstart := 0, tend := 1,
     speech := { word_count := 2, confidence := 1/10, speed_wpm := 100,
                 pause_count := 0, pause_duration := 0, filler_count := 0 } }]

lemma c8_input_transform :
    transform c8_input = [⟨0, [⟨data_quality_issue_s, 9/10⟩]⟩] := by
  norm_num [transform, transform_aux, step_sentence, TState.init, Hist.empty, metricsOf,
    baselinesOf, get_baseline, detect_indicators, c8_input, LOW_CONFIDENCE_THRESHOLD,
    update_hist, round2_nine_tenths]

theorem c8_grade_clamped_witness :
    (⟨0, [⟨data_quality_issue_s, 9/10⟩]⟩ : SentOut) ∈ transform c8_input ∧
    (0 : ℚ) ≤ (9/10 : ℚ) ∧ (9/10 : ℚ) ≤ 1 := by
  have hmem : (⟨0, [⟨data_quality_issue_s, 9/10⟩]⟩ : SentOut) ∈ transform c8_input := by
    rw [c8_input_transform]; exact List.mem_singleton.mpr rfl
  have h := c8_grade_clamped c8_input _ hmem ⟨data_quality_issue_s, (9/10 : ℚ)⟩
    (List.mem_singleton.mpr rfl)
  exact ⟨hmem, h.1, h.2⟩

/-! ## C10: the agreement-pattern grade floor -/

lemma round2_ge_67 (q : ℚ) (h23 : 2/3 ≤ q) : 67/100 ≤ round2 q := by
  have hx : (200 : ℚ)/3 ≤ q * 100 := by linarith
  have hf66 : (66 : ℤ) ≤ ⌊q * 100⌋ := by
    rw [Int.le_floor]
    push_cast
    linarith
  have hf66q : (66 : ℚ) ≤ (⌊q * 100⌋ : ℚ) := by exact_mod_cast hf66
  simp only [round2]
  split_ifs with hr1 hr2 hpar
  · have hf67 : (67 : ℤ) ≤ ⌊q * 100⌋ := by
      by_contra hcon
      push_neg at hcon
      have hf : ⌊q * 100⌋ = 66 := by omega
      have h1 : q * 100 - (⌊q * 100⌋ : ℚ) ≥ 2/3 := by
        rw [hf]
        push_cast
        linarith
      have h2 : q * 100 - (⌊q * 100⌋ : ℚ) < 1/2 := hr1
      linarith
    have : (67 : ℚ) ≤ (⌊q * 100⌋ : ℚ) := by exact_mod_cast hf67
    linarith
  · push_cast
    linarith
  · have hr : q * 100 - (⌊q * 100⌋ : ℚ) = 1/2 := le_antisymm (not_lt.mp hr2) (not_lt.mp hr1)
    have h1 : (66 : ℚ) < (⌊q * 100⌋ : ℚ) := by linarith
    have h2 : (66 : ℤ) < ⌊q * 100⌋ := by exact_mod_cast h1
    have h3 : (67 : ℚ) ≤ (⌊q * 100⌋ : ℚ) := by exact_mod_cast h2
    linarith
  · push_cast
    linarith

/-- The agreement block emits exactly one indicator under the structural
conditions with a positive word count. -/
lemma agreement_block_emits (m : Metrics) (p : ℕ) (t : String) (ts : List String)
    (htext : m.text ≠ "")
    (hsplit : pyWords (pyLower m.text) = t :: ts)
    (htok : pyStrip t ∈ agreement_tokens)
    (hwc1 : 1 ≤ m.word_count) (hwc3 : m.word_count ≤ 3)
    (hprev : m.word_count * 2 ≤ p)
    (hthr : GRADE_THRESHOLD ≤ min (1:ℚ) ((p : ℚ) / ((m.word_count : ℚ) * 3))) :
    agreement_block m (some p) false =
      [⟨agreement_pattern_s, round2 (min 1 ((p : ℚ) / ((m.word_count : ℚ) * 3)))⟩] := by
  have hwc0 : m.word_count > 0 := hwc1
  simp only [agreement_block, hsplit, eq_self_iff_true, and_true]
  rw [if_pos ⟨htext, hwc3⟩, if_pos ⟨htok, hprev⟩, if_pos hwc0, if_pos hthr]

/-- C10 amended: whenever the structural agreement-pattern conditions
hold with word_count at least 1 (and the data-quality gate does not fire),
the computed grade min(1, prev/(wc*3)) is at least 2/3, so the 0.5
threshold cannot reject the candidate, the indicator is emitted, and
every agreement_pattern indicator emitted under a positive word count has
grade at least 0.67; the word_count = 0 sentinel instead yields the fixed
0.5 grade, below 0.67. -/
theorem c10_agreement_grade_floor (m : Metrics) (b : Baselines) (p : ℕ)
    (t : String) (ts : List String)
    (hlq : ¬(0 < m.confidence ∧ m.confidence < LOW_CONFIDENCE_THRESHOLD))
    (htext : m.text ≠ "")
    (hsplit : pyWords (pyLower m.text) = t :: ts)
    (htok : pyStrip t ∈ agreement_tokens)
    (hwc1 : 1 ≤ m.word_count) (hwc3 : m.word_count ≤ 3)
    (hprev : m.word_count * 2 ≤ p) :
    2/3 ≤ min (1:ℚ) ((p : ℚ) / ((m.word_count : ℚ) * 3)) ∧
    GRADE_THRESHOLD ≤ min (1:ℚ) ((p : ℚ) / ((m.word_count : ℚ) * 3)) ∧
    (⟨agreement_pattern_s, round2 (min 1 ((p : ℚ) / ((m.word_count : ℚ) * 3)))⟩ : Indicator)
      ∈ (detect_indicators m b (some p) false).1 ∧
    ∀ ind ∈ (detect_indicators m b (some p) false).1,
      ind.indicator = agreement_pattern_s → 67/100 ≤ ind.grade := by
  have hwcq : (1 : ℚ) ≤ (m.word_count : ℚ) := by exact_mod_cast hwc1
  have hpos : (0 : ℚ) < (m.word_count : ℚ) * 3 := by linarith
  have hpq : 2 * (m.word_count : ℚ) ≤ (p : ℚ) := by
    have : ((m.word_count * 2 : ℕ) : ℚ) ≤ ((p : ℕ) : ℚ) := by exact_mod_cast hprev
    push_cast at this
    linarith
  have hg23 : (2 : ℚ)/3 ≤ (p : ℚ) / ((m.word_count : ℚ) * 3) := by
    rw [le_div_iff₀ hpos]
    nlinarith
  have hgmin : (2 : ℚ)/3 ≤ min (1:ℚ) ((p : ℚ) / ((m.word_count : ℚ) * 3)) :=
    le_min (by norm_num) hg23
  have hthr : GRADE_THRESHOLD ≤ min (1:ℚ) ((p : ℚ) / ((m.word_count : ℚ) * 3)) :=
    le_trans (by norm_num [GRADE_THRESHOLD]) hgmin
  have hemit := agreement_block_emits m p t ts htext hsplit htok hwc1 hwc3 hprev hthr
  have hne1 : data_quality_issue_s ≠ agreement_pattern_s := by decide
  have hne2 : speed_deviation_s ≠ agreement_pattern_s := by decide
  have hne3 : pause_count_increase_s ≠ agreement_pattern_s := by decide
  have hne4 : filler_increase_s ≠ agreement_pattern_s := by decide
  have hne5 : word_count_deviation_s ≠ agreement_pattern_s := by decide
  refine ⟨hgmin, hthr, ?_, ?_⟩
  · rw [detect_indicators, if_neg hlq]
    exact List.mem_append.mpr (Or.inr (by rw [hemit]; exact List.mem_singleton.mpr rfl))
  · intro ind hind hname
    rw [detect_indicators, if_neg hlq] at hind
    simp only [List.mem_append] at hind
    rcases hind with ((((h | h) | h) | h) | h)
    · exact absurd hname ((speed_block_names m b false ind h) ▸ hne2)
    · exact absurd hname ((pause_block_names m b false ind h) ▸ hne3)
    · exact absurd hname ((filler_block_names m b false ind h) ▸ hne4)
    · exact absurd hname ((word_count_block_names m b false ind h) ▸ hne5)
    · rw [hemit] at h
      rcases List.mem_singleton.mp h with rfl
      exact round2_ge_67 _ hgmin

def c10w_m : Metrics :=
  { word_count := 1, confidence := 1, speed := 0, pause_count := 0,
    pause_duration := 0, filler_count := 0, text := "yes" }

def c10w_b : Baselines :=
  { speed := none, pause_count := none, confidence := none,
    word_count := none, filler_count := none }

theorem c10_agreement_grade_floor_witness :
    pyWords (pyLower c10w_m.text) = "yes" :: [] ∧
    pyStrip "yes" ∈ agreement_tokens ∧
    1 ≤ c10w_m.word_count ∧ c10w_m.word_count ≤ 3 ∧ c10w_m.word_count * 2 ≤ 7 ∧
    2/3 ≤ min (1:ℚ) ((7 : ℚ) / ((c10w_m.word_count : ℚ) * 3)) ∧
    (⟨agreement_pattern_s,
      round2 (min 1 ((7 : ℚ) / ((c10w_m.word_count : ℚ) * 3)))⟩ : Indicator)
      ∈ (detect_indicators c10w_m c10w_b (some 7) false).1 := by
  have h := c10_agreement_grade_floor c10w_m c10w_b 7 "yes" []
    (by norm_num [c10w_m, LOW_CONFIDENCE_THRESHOLD])
    (by decide) (by decide) (by decide)
    (by decide) (by decide) (by decide)
  exact ⟨by decide, by decide, by decide, by decide, by decide, h.1, h.2.2.1⟩

/-- C10 counterexample input: six three-word sentences followed by a
bare "yes" whose word_count metric is the 0 sentinel. -/
def c10_pad : SentenceIn :=
  { text := "hello you three", tstart := 0, tend := 1,
    speech := { word_count := 3, confidence := 1, speed_wpm := 0,
                pause_count := 0, pause_duration := 0, filler_count := 0 } }

def c10_cx_input : List SentenceIn :=
  [c10_pad, c10_pad, c10_pad, c10_pad, c10_pad, c10_pad,
   { text := "yes", tstart := 6, tend := 7,
     speech := { word_count := 0, confidence := 1, speed_wpm := 0,
                 pause_count := 0, pause_duration := 0, filler_count := 0 } }]

/-- C10 counterexample: at sentence 6 an agreement_pattern indicator is
emitted with grade exactly 0.5 < 0.67 (the word_count-0 path of the
source), refuting the claim that every emitted agreement_pattern
indicator has grade at least 0.67. -/
theorem c10_counterexample :
    (transform c10_cx_input).getD 6 ⟨0, []⟩ = ⟨6, [⟨agreement_pattern_s, 1/2⟩]⟩ ∧
    (1/2 : ℚ) < 67/100 := by
  constructor
  · have htok : pyStrip "yes" ∈ agreement_tokens := by decide
    have hsplit : pyWords (pyLower "yes") = ["yes"] := by decide
    have hsplit2 : pyWords (pyLower "hello you three") = ["hello", "you", "three"] := by decide
    have hnotok : pyStrip "hello" ∉ agreement_tokens := by decide
    have hne : ("hello you three" : String) ≠ "" := by decide
    have hne2 : ("yes" : String) ≠ "" := by decide
    norm_num [transform, transform_aux, step_sentence, TState.init, Hist.empty, metricsOf,
      baselinesOf, get_baseline, detect_indicators, c10_cx_input, c10_pad,
      LOW_CONFIDENCE_THRESHOLD, GRADE_THRESHOLD, EXTREME_DEVIATION_THRESHOLD, update_hist,
      speed_block, pause_block, filler_block, word_count_block, agreement_block,
      compute_grade, round2_half, hsplit, hsplit2, hnotok, htok, hne, hne2,
      WARMUP_SENTENCES, BASELINE_WINDOW]
  · norm_num

/-! ## C4: the call-scoped PII rule -/

/-- The sentence index of the first marker record holding a qualifying
PII marker, scanning positionally from `i` (mirrors the loop-with-return
of `_rule_pii_sensitive`). -/
def first_pii_idx : ℕ → List (List GMarker) → Option ℕ
  | _, [] => none
  | i, ms :: rest => if pii_qual ms ≠ [] then some i else first_pii_idx (i + 1) rest

lemma rule_pii_aux_spec (inp : GenInput) :
    ∀ (l : List (List GMarker)) (i : ℕ),
      (rule_pii_aux inp i l).length ≤ 1 ∧
      ∀ e ∈ rule_pii_aux inp i l,
        first_pii_idx i l = some e.sentence_index ∧ e.event_type = pii_sensitive_call_s := by
  intro l
  induction l with
  | nil =>
    intro i
    exact ⟨by simp [rule_pii_aux], by intro e he; simp [rule_pii_aux] at he⟩
  | cons ms rest ih =>
    intro i
    cases hq : pii_qual ms with
    | nil =>
      have hcond : ¬(pii_qual ms ≠ []) := by simp [hq]
      constructor
      · simp only [rule_pii_aux, hq]
        exact (ih (i + 1)).1
      · intro e he
        simp only [rule_pii_aux, hq] at he
        have h2 := (ih (i + 1)).2 e he
        simp only [first_pii_idx]
        rw [if_neg hcond]
        exact h2
    | cons p ps =>
      constructor
      · simp [rule_pii_aux, hq]
      · intro e he
        simp only [rule_pii_aux, hq] at he
        rcases List.mem_singleton.mp he with rfl
        simp only [first_pii_idx]
        rw [if_pos (by simp [hq])]
        exact ⟨rfl, rfl⟩

/-- C4 amended: in the EventGen engine the `pii_sensitive_call` rule
emits at most one event for the whole call, anchored at the first marker
record holding a `potential_pii` marker with a phone_pattern or
account_pattern category; later qualifying markers produce nothing (the
V2 `EventDetector` variant instead emits one event per `pii_disclosure`
record when product sensitivity is high, see the counterexample). -/
theorem c4_pii_single_event (inp : GenInput) :
    (rule_pii_sensitive inp).length ≤ 1 ∧
    ∀ e ∈ rule_pii_sensitive inp,
      first_pii_idx 0 inp.markers = some e.sentence_index ∧
      e.event_type = pii_sensitive_call_s :=
  rule_pii_aux_spec inp inp.markers 0

def c4w_inp : GenInput :=
  { sentences := [⟨0, 1⟩, ⟨1, 2⟩, ⟨2, 3⟩, ⟨3, 4⟩]
    signals := []
    markers := [[], [⟨potential_pii_s, some phone_pattern_s, none⟩], [],
                [⟨potential_pii_s, some account_pattern_s, none⟩]]
    ctx := ⟨low_s, high_s⟩ }

def c4w_event : Event :=
  { event_type := pii_sensitive_call_s
    sentence_index := 1
    tstart := 1
    tend := 2
    evidence := [Evd.piiMarker (some phone_pattern_s) 1]
    amount_band := low_s
    product_sensitivity := high_s
    explanation := "PII (phone_pattern) disclosed at sentence 1"
    suggested_action := restricted_access_s }

theorem c4_pii_single_event_witness :
    (rule_pii_sensitive c4w_inp).length ≤ 1 ∧
    c4w_event ∈ rule_pii_sensitive c4w_inp ∧
    first_pii_idx 0 c4w_inp.markers = some c4w_event.sentence_index := by
  have hmem : c4w_event ∈ rule_pii_sensitive c4w_inp := by decide
  exact ⟨(c4_pii_single_event c4w_inp).1, hmem,
    ((c4_pii_single_event c4w_inp).2 c4w_event hmem).1⟩

/-- C4 counterexample input for the cited V2 `EventDetector` rule: high
product sensitivity with `pii_disclosure` markers at records 0 and 2. -/
def c4cx_inp : GenInput :=
  { sentences := []
    signals := []
    markers := [[⟨pii_disclosure_s, none, none⟩], [], [⟨pii_disclosure_s, none, none⟩]]
    ctx := ⟨normal_s, high_s⟩ }

/-- C4 counterexample: the V2 `EventDetector` (one of the claim's cited
implementations) emits two `pii_sensitive_call` events for one call, at
sentences 0 and 2, so the rule does not stop at the first qualifying PII
marker there. -/
theorem c4_counterexample :
    c4cx_inp.ctx.product_sensitivity = high_s ∧
    ((ep_detect c4cx_inp).filter
      (fun e => decide (e.event_type = pii_sensitive_call_s))).map
      (fun e => e.sentence_index) = [0, 2] ∧
    2 ≤ ((ep_detect c4cx_inp).filter
      (fun e => decide (e.event_type = pii_sensitive_call_s))).length := by decide

/-! ## C6: pressure-review stage ordering -/

lemma foldl_max_ge (l : List ℕ) : ∀ a, a ≤ l.foldl max a ∧ ∀ x ∈ l, x ≤ l.foldl max a := by
  induction l with
  | nil => intro a; exact ⟨le_refl a, by intro x hx; simp at hx⟩
  | cons y ys ih =>
    intro a
    have h := ih (max a y)
    refine ⟨le_trans (le_max_left a y) h.1, ?_⟩
    intro x hx
    rcases List.mem_cons.mp hx with rfl | hx
    · exact le_trans (le_max_right a x) h.1
    · exact h.2 x hx

lemma le_pyMax (l : List ℕ) (x : ℕ) (hx : x ∈ l) : x ≤ pyMax l :=
  (foldl_max_ge l 0).2 x hx

lemma mem_rangeList {x a b : ℕ} : x ∈ rangeList a b ↔ a ≤ x ∧ x < b := by
  unfold rangeList
  rw [List.mem_range'_1]
  omega

/-- C6: every pressure_review event of the EventGen rule has its three
stages at strictly increasing sentence indices - the hesitation anchor
below every product-push index, every product-push index below every
agreement index - and the agreement search starts right after the
maximum-index product push of the (i, i+2] window and extends at most two
sentences past it. -/
theorem c6_pressure_ordering (inp : GenInput) :
    ∀ e ∈ rule_pressure_review inp,
      e.event_type = pressure_review_s ∧
      pressure_pp inp e.sentence_index ≠ [] ∧
      pressure_ag inp e.sentence_index ≠ [] ∧
      e.evidence = [Evd.indicatorAt hesitation_s e.sentence_index,
        Evd.markerList product_reference_s (pressure_pp inp e.sentence_index),
        Evd.indicatorList agreement_pattern_s (pressure_ag inp e.sentence_index)] ∧
      (∀ x ∈ pressure_pp inp e.sentence_index,
        e.sentence_index < x ∧ x ≤ e.sentence_index + 2) ∧
      (∀ x ∈ pressure_pp inp e.sentence_index,
        ∀ a ∈ pressure_ag inp e.sentence_index, x < a) ∧
      (∀ a ∈ pressure_ag inp e.sentence_index,
        pyMax (pressure_pp inp e.sentence_index) < a ∧
        a ≤ pyMax (pressure_pp inp e.sentence_index) + 2) := by
  intro e he
  rw [rule_pressure_review] at he
  rcases List.mem_filterMap.mp he with ⟨idx, _, hck⟩
  rw [pressure_check] at hck
  by_cases h1 : (has_indicator inp idx speed_deviation_s
      || has_indicator inp idx pause_count_increase_s) = false
  · rw [if_pos h1] at hck
    exact absurd hck (by simp)
  rw [if_neg h1] at hck
  by_cases h2 : pressure_pp inp idx = []
  · rw [if_pos h2] at hck
    exact absurd hck (by simp)
  rw [if_neg h2] at hck
  by_cases h3 : pressure_ag inp idx = []
  · rw [if_pos h3] at hck
    exact absurd hck (by simp)
  rw [if_neg h3] at hck
  · have heq := Option.some.inj hck
    subst heq
    refine ⟨rfl, h2, h3, rfl, ?_, ?_, ?_⟩
    · intro x hx
      have hr := mem_rangeList.mp (List.mem_filter.mp hx).1
      have hmin := lt_of_lt_of_le hr.2 (min_le_right inp.sentences.length (idx + 3))
      omega
    · intro x hx a ha
      have hxm := le_pyMax _ x hx
      have hr := mem_rangeList.mp (List.mem_filter.mp ha).1
      omega
    · intro a ha
      have hr := mem_rangeList.mp (List.mem_filter.mp ha).1
      have hmin := lt_of_lt_of_le hr.2
        (min_le_right inp.sentences.length (pyMax (pressure_pp inp idx) + 3))
      omega

def standard_s : String := "standard"

def c6w_inp : GenInput :=
  { sentences := [⟨0, 1⟩, ⟨1, 2⟩, ⟨2, 3⟩, ⟨3, 4⟩]
    signals := [[speed_deviation_s], [], [agreement_pattern_s], []]
    markers := [[], [⟨product_reference_s, none, none⟩], [], []]
    ctx := ⟨normal_s, standard_s⟩ }

def c6w_event : Event :=
  { event_type := pressure_review_s
    sentence_index := 0
    tstart := 0
    tend := 1
    evidence := [Evd.indicatorAt hesitation_s 0,
      Evd.markerList product_reference_s [1],
      Evd.indicatorList agreement_pattern_s [2]]
    amount_band := normal_s
    product_sensitivity := standard_s
    explanation := "Hesitation, product push, agreement pattern: 0 then [1] then [2]"
    suggested_action := manual_review_s }

theorem c6_pressure_ordering_witness :
    c6w_event ∈ rule_pressure_review c6w_inp ∧
    pressure_pp c6w_inp c6w_event.sentence_index = [1] ∧
    pressure_ag c6w_inp c6w_event.sentence_index = [2] ∧
    c6w_event.sentence_index < 1 ∧ (1 : ℕ) ≤ c6w_event.sentence_index + 2 ∧
    pyMax (pressure_pp c6w_inp c6w_event.sentence_index) < 2 ∧
    (2 : ℕ) ≤ pyMax (pressure_pp c6w_inp c6w_event.sentence_index) + 2 := by
  have hmem : c6w_event ∈ rule_pressure_review c6w_inp := by decide
  have h := c6_pressure_ordering c6w_inp c6w_event hmem
  refine ⟨hmem, by decide, by decide, ?_, ?_, ?_, ?_⟩
  · exact (h.2.2.2.2.1 1 (by decide)).1
  · exact (h.2.2.2.2.1 1 (by decide)).2
  · exact (h.2.2.2.2.2.2 2 (by decide)).1
  · exact (h.2.2.2.2.2.2 2 (by decide)).2

/-- C6 counterexample input for the cited V2 `EventDetector` rule:
urgency language at record 2, a sales prompt before it at record 0,
hesitation after it at record 3, and no agreement_pattern indicator
anywhere in the call. -/
def c6cx_inp : GenInput :=
  { sentences := []
    signals := [[], [], [], [speed_deviation_s]]
    markers := [[⟨sales_prompt_s, none, none⟩], [], [⟨urgency_language_s, none, none⟩]]
    ctx := ⟨normal_s, standard_s⟩ }

/-- C6 counterexample: the V2 `EventDetector` (one of the claim's cited
implementations) emits a pressure_review event although the call contains
no agreement_pattern indicator at all and its sales/product stage (record
0) precedes the event anchor (record 2), so the three-stage strictly
increasing structure the claim asserts does not exist there. -/
theorem c6_counterexample :
    ((ep_detect c6cx_inp).filter
      (fun e => decide (e.event_type = pressure_review_s))).map
      (fun e => e.sentence_index) = [2] ∧
    (List.range c6cx_inp.signals.length).all
      (fun i => !(has_indicator c6cx_inp i agreement_pattern_s)) = true ∧
    has_marker_type c6cx_inp 0 sales_prompt_s = true := by decide

/-! ## C2: affordability consolidation -/

/-- The affordability trigger indices of a call, in sentence order. -/
def afford_triggers (inp : GenInput) : List ℕ :=
  (List.range inp.sentences.length).filter (afford_trigger inp)

/-- The first currency marker of trigger `idx` has its matched text
recorded in the event. -/
def matched_in (inp : GenInput) (idx : ℕ) (e : Event) : Prop :=
  ∀ c, (currency_markers_at inp idx).head? = some c →
    c.matched_text ∈ currency_matches e.evidence

/-- Invariant of the affordability loop after processing the triggers in
`T`: no closed event, and a single open affordability event of the
call's band recording every processed trigger's currency match. -/
def AffInv (inp : GenInput) (T : List ℕ) (st : AffState) : Prop :=
  (T = [] → st = ⟨[], none, 0⟩) ∧
  (T ≠ [] → st.closed = [] ∧ ∃ ev, st.openEv = some ev ∧
    ev.event_type = affordability_signal_s ∧
    ev.amount_band = inp.ctx.amount_band ∧
    ∀ idx ∈ T, matched_in inp idx ev)

lemma currency_matches_append (l : List Evd) (m : Option String) (i : ℕ) :
    currency_matches (l ++ [Evd.currency m i]) = currency_matches l ++ [m] := by
  simp [currency_matches]

lemma currency_matches_merge (l : List Evd) (hs : List ℕ) :
    currency_matches (merge_hesitation l hs) = currency_matches l := by
  induction l with
  | nil => rfl
  | cons e rest ih =>
    cases e <;> simp [merge_hesitation, currency_matches, List.filterMap_cons] <;>
      simpa [currency_matches] using ih

lemma afford_step_not_trigger (inp : GenInput) (st : AffState) (idx : ℕ)
    (h : afford_trigger inp idx = false) : afford_step inp st idx = st := by
  cases hc : currency_markers_at inp idx with
  | nil => simp only [afford_step, hc]
  | cons c cs =>
    have hhes : afford_hesitation inp idx = [] := by
      by_contra hne
      simp [afford_trigger, hc, hne] at h
    simp only [afford_step, hc]
    rw [if_pos hhes]

lemma afford_step_trigger (inp : GenInput) (T : List ℕ) (st : AffState) (idx : ℕ)
    (htr : afford_trigger inp idx = true) (hinv : AffInv inp T st) :
    AffInv inp (T ++ [idx]) (afford_step inp st idx) := by
  have h1 : currency_markers_at inp idx ≠ [] ∧ afford_hesitation inp idx ≠ [] := by
    simpa [afford_trigger] using htr
  cases hc : currency_markers_at inp idx with
  | nil => exact absurd hc h1.1
  | cons c cs =>
    simp only [afford_step, hc]
    rw [if_neg h1.2]
    cases T with
    | nil =>
      have hst := hinv.1 rfl
      subst hst
      refine ⟨by simp, fun _ => ⟨rfl, new_afford_event inp idx c
        (afford_hesitation inp idx) inp.ctx.amount_band, rfl, rfl, rfl, ?_⟩⟩
      intro idx2 hidx2
      rcases List.mem_singleton.mp hidx2 with rfl
      intro c2 hc2
      rw [hc] at hc2
      rcases Option.some.inj hc2 with rfl
      simp [new_afford_event, currency_matches]
    | cons t ts =>
      obtain ⟨hcl, ev, hopen, htype, hband, hmat⟩ := hinv.2 (by simp)
      simp only [hopen]
      rw [if_pos hband.symm]
      refine ⟨by simp, fun _ => ⟨by simpa using hcl, _, rfl, htype, hband, ?_⟩⟩
      have hsub : ∀ x, x ∈ currency_matches ev.evidence →
          x ∈ currency_matches (merge_hesitation
            (if c.matched_text ∈ currency_matches ev.evidence then ev.evidence
             else ev.evidence ++ [Evd.currency c.matched_text idx])
            (afford_hesitation inp idx)) := by
        intro x hx
        rw [currency_matches_merge]
        by_cases hmem : c.matched_text ∈ currency_matches ev.evidence
        · rw [if_pos hmem]; exact hx
        · rw [if_neg hmem, currency_matches_append]
          exact List.mem_append.mpr (Or.inl hx)
      have hnew : c.matched_text ∈ currency_matches (merge_hesitation
          (if c.matched_text ∈ currency_matches ev.evidence then ev.evidence
           else ev.evidence ++ [Evd.currency c.matched_text idx])
          (afford_hesitation inp idx)) := by
        rw [currency_matches_merge]
        by_cases hmem : c.matched_text ∈ currency_matches ev.evidence
        · rw [if_pos hmem]; exact hmem
        · rw [if_neg hmem, currency_matches_append]
          exact List.mem_append.mpr (Or.inr (List.mem_singleton.mpr rfl))
      intro idx2 hidx2
      rcases List.mem_append.mp hidx2 with hidx2 | hidx2
      · intro c2 hc2
        exact hsub _ (hmat idx2 hidx2 c2 hc2)
      · rcases List.mem_singleton.mp hidx2 with rfl
        intro c2 hc2
        rw [hc] at hc2
        rcases Option.some.inj hc2 with rfl
        exact hnew

lemma afford_loop_inv (inp : GenInput) :
    ∀ (l : List ℕ) (T : List ℕ) (st : AffState), AffInv inp T st →
      AffInv inp (T ++ l.filter (afford_trigger inp)) (afford_loop inp l st) := by
  intro l
  induction l with
  | nil => intro T st h; simpa [afford_loop] using h
  | cons i rest ih =>
    intro T st h
    rw [afford_loop]
    cases htr : afford_trigger inp i
    · rw [afford_step_not_trigger inp st i htr]
      have h2 := ih T st h
      simpa [List.filter_cons, htr] using h2
    · have h2 := afford_step_trigger inp T st i htr h
      have h3 := ih (T ++ [i]) _ h2
      simpa [List.filter_cons, htr, List.append_assoc] using h3

/-- C2 amended: in the EventGen engine, for a call with a low or normal
amount band and at least two qualifying affordability triggers (the band
cannot change mid-call since the financial context is one per-call
snapshot), the rule produces exactly one affordability event, and the
matched text of every trigger's first currency marker appears in that
event's evidence (the V2 `EventDetector` variant instead emits one event
per trigger, see the counterexample). -/
theorem c2_affordability_consolidation (inp : GenInput)
    (hband : inp.ctx.amount_band = low_s ∨ inp.ctx.amount_band = normal_s)
    (htrig : 2 ≤ (afford_triggers inp).length) :
    (rule_affordability_signal inp).length = 1 ∧
    ∀ idx ∈ afford_triggers inp, ∀ e ∈ rule_affordability_signal inp,
      ∀ c, (currency_markers_at inp idx).head? = some c →
        c.matched_text ∈ currency_matches e.evidence := by
  have hinv0 : AffInv inp [] ⟨[], none, 0⟩ := ⟨fun _ => rfl, fun h => absurd rfl h⟩
  have hinv := afford_loop_inv inp (List.range inp.sentences.length) [] _ hinv0
  rw [List.nil_append] at hinv
  have hTne : afford_triggers inp ≠ [] := by
    intro h
    rw [afford_triggers] at h
    rw [afford_triggers, h] at htrig
    simp at htrig
  obtain ⟨hcl, ev, hopen, _, _, hmat⟩ := hinv.2 (by rw [afford_triggers] at hTne; exact hTne)
  rw [rule_affordability_signal, if_pos hband]
  constructor
  · simp [hcl, hopen]
  · intro idx hidx e he c hc
    simp only [hcl, hopen, Option.toList_some, List.nil_append] at he
    rcases List.mem_singleton.mp he with rfl
    exact hmat idx (by rw [afford_triggers] at hidx; exact hidx) c hc

def c2w_amt1 : String := "500 dollars"
def c2w_amt2 : String := "900 dollars"

def c2w_inp : GenInput :=
  { sentences := [⟨0, 1⟩, ⟨1, 2⟩, ⟨2, 3⟩, ⟨3, 4⟩]
    signals := [[], [speed_deviation_s], [], []]
    markers := [[⟨financial_entity_s, some currency_amount_s, some c2w_amt1⟩], [],
                [⟨financial_entity_s, some currency_amount_s, some c2w_amt2⟩], []]
    ctx := ⟨low_s, standard_s⟩ }

def c2_dummy : Event :=
  ⟨empty_s, 0, 0, 0, [], empty_s, empty_s, empty_s, empty_s⟩

theorem c2_affordability_consolidation_witness :
    (c2w_inp.ctx.amount_band = low_s ∨ c2w_inp.ctx.amount_band = normal_s) ∧
    2 ≤ (afford_triggers c2w_inp).length ∧
    (rule_affordability_signal c2w_inp).length = 1 ∧
    some c2w_amt1 ∈ currency_matches
      ((rule_affordability_signal c2w_inp).headD c2_dummy).evidence ∧
    some c2w_amt2 ∈ currency_matches
      ((rule_affordability_signal c2w_inp).headD c2_dummy).evidence := by
  have hband : c2w_inp.ctx.amount_band = low_s ∨ c2w_inp.ctx.amount_band = normal_s :=
    Or.inl rfl
  have htrig : 2 ≤ (afford_triggers c2w_inp).length := by decide
  have h := c2_affordability_consolidation c2w_inp hband htrig
  have hmem : (rule_affordability_signal c2w_inp).headD c2_dummy ∈
      rule_affordability_signal c2w_inp := by
    obtain ⟨a, ha⟩ := List.length_eq_one.mp h.1
    rw [ha]
    exact List.mem_singleton.mpr rfl
  refine ⟨hband, htrig, h.1, ?_, ?_⟩
  · exact h.2 0 (by decide) _ hmem
      ⟨financial_entity_s, some currency_amount_s, some c2w_amt1⟩ (by decide)
  · exact h.2 2 (by decide) _ hmem
      ⟨financial_entity_s, some currency_amount_s, some c2w_amt2⟩ (by decide)

/-- C2 counterexample input for the cited V2 `EventDetector` rule: two
currency mentions with adjacent hesitation under a constant low band. -/
def c2cx_inp : GenInput :=
  { sentences := []
    signals := [[], [speed_deviation_s], [], []]
    markers := [[⟨financial_entity_s, some currency_amount_s, some c2w_amt1⟩], [],
                [⟨financial_entity_s, some currency_amount_s, some c2w_amt2⟩], []]
    ctx := ⟨low_s, standard_s⟩ }

/-- C2 counterexample: the V2 `EventDetector` (one of the claim's cited
implementations) emits two affordability_signal events, at sentences 0
and 2, for two qualifying triggers under one unchanged low band - not
the single consolidated event the claim asserts. -/
theorem c2_counterexample :
    c2cx_inp.ctx.amount_band = low_s ∧
    ((ep_detect c2cx_inp).filter
      (fun e => decide (e.event_type = affordability_signal_s))).map
      (fun e => e.sentence_index) = [0, 2] ∧
    2 ≤ ((ep_detect c2cx_inp).filter
      (fun e => decide (e.event_type = affordability_signal_s))).length := by decide

end VoskSpec
